import Mathlib

/-!
Shallow embedding of the hot-folder image viewer (src/viewer.py) and of the
parts of the Python standard library that its behaviour depends on (the csv
module, text-mode universal-newline translation, list indexing).

Python exceptions are modelled as an `Option String` error component carried
next to the state: `none` means the call returned normally, `some e` means an
exception named `e` propagated out of the call, with the state as mutated up
to the point of the raise (Python keeps mutations made before an exception).

External effects are passed in as oracle parameters:
  - `dec : String → Bool` tells whether PIL can open and decode a path
    (the try block of `load_image`);
  - `fsExists : String → Bool` models `os.path.isfile`;
  - `listing : List String` models the directory enumeration
    (`os.listdir` / `treewalk`), which yields pairwise distinct paths;
  - `shuffle : List String → List String` models the in-place
    `random.shuffle`, which may realise any permutation of its input.
-/

namespace Viewer

/-- Model of `os.path.basename` for POSIX paths: the characters after the
last slash.  A path ending in a slash yields the empty string, as in Python. -/
def basename (p : String) : String :=
  ⟨p.data.foldl (fun acc c => if c = '/' then [] else acc ++ [c]) []⟩

/-- One value of the metadata dictionary of viewer.py.  The dictionaries
built by `load_metadata`, `on_rating` and `on_text` always carry both the
`rating` and the `notes` key once the operation completes. -/
structure MetadataRecord where
  rating : String
  notes : String
deriving DecidableEq, Repr

/-- The in-memory metadata dictionary.  A Python dict preserves insertion
order; we model it as an association list whose keys are unique. -/
abbrev Store := List (String × MetadataRecord)

/-- Python dict assignment `d[k] = v`: replace the value in place if the key
is present, otherwise append the new binding at the end. -/
def dict_set (md : Store) (k : String) (v : MetadataRecord) : Store :=
  if md.any (fun p => p.1 == k) then
    md.map (fun p => if p.1 == k then (k, v) else p)
  else md ++ [(k, v)]

/-- Python dict lookup `d.get(k)` as an association-list search. -/
def dict_find (md : Store) (k : String) : Option MetadataRecord :=
  (md.find? (fun p => p.1 == k)).map (fun p => p.2)

/-- Lines 200-203 of viewer.py (`on_rating` body): create the record with
empty notes if absent, then overwrite the rating. -/
def dict_set_rating (md : Store) (k : String) (digit : String) : Store :=
  match dict_find md k with
  | none => dict_set md k ⟨digit, ""⟩
  | some r => dict_set md k ⟨digit, r.notes⟩

/-- Lines 236-238 of viewer.py (`on_text` body): create the record with
rating `"0"` if absent, then overwrite the notes. -/
def dict_set_notes (md : Store) (k : String) (text : String) : Store :=
  match dict_find md k with
  | none => dict_set md k ⟨"0", text⟩
  | some r => dict_set md k ⟨r.rating, text⟩

/-- The default-raising read used by the filter loop of `goto_image`
(lines 130-132): rating `"0"` when the basename is unknown. -/
def rating_for (md : Store) (name : String) : String :=
  match dict_find md name with
  | none => "0"
  | some r => r.rating

/-- Python string comparison is lexicographic on code points; it is modelled
directly on the character lists (the core order on `String` is defined
through iterators and does not evaluate inside the kernel). -/
def charListLt : List Char → List Char → Bool
  | _, [] => false
  | [], _ :: _ => true
  | c :: cs, d :: ds =>
    if c.toNat < d.toNat then true
    else if d.toNat < c.toNat then false
    else charListLt cs ds

/-- Python `a < b` on strings. -/
def pyStrLt (a b : String) : Bool := charListLt a.data b.data

/-- Line 572 of viewer.py: the candidates that are new at this tick --
not already known, not on the skip list, and still present on disk. -/
def merge (fsExists : String → Bool) (paths images skiplist : List String) :
    List String :=
  paths.filter (fun p => !images.contains p && !skiplist.contains p && fsExists p)

/-- The mutable fields of the `Viewer` object that the verified logic
touches.  `image_index` is `none` exactly when Python holds `None`. -/
structure ViewerState where
  image_index : Option Int
  images : List String
  skiplist : List String
  metadata : Store
  filter : Option String
  slideshow : Bool
  slideshow_ticks : Int
  slideshow_next : Int
  sort_on_load : Bool
  randomise_on_load : Bool
  update : Bool
  rescan : Bool
deriving DecidableEq, Repr

/-- Python list index resolution for `l[i]`: nonnegative indices address from
the front, negative indices wrap once from the back, anything else raises
IndexError (modelled by `none`). -/
def list_index_int (l : List String) (i : Int) : Option Nat :=
  if 0 ≤ i then (if i < l.length then some i.toNat else none)
  else (if (-i).toNat ≤ l.length then some (l.length - (-i).toNat) else none)

/-- Outcome of the `load_image` recursion: the mutated lists, the path that
was finally displayed (if any), and whether an IndexError escaped. -/
structure LoadOutcome where
  images : List String
  skiplist : List String
  displayed : Option String
  fault : Bool
deriving DecidableEq, Repr

/-- Lines 501-518 of viewer.py: read `self.images[self.image_index]`; on a
decode failure append the path to the skip list, delete the list entry and
recurse with the index unchanged.  The index is re-resolved against the
shrunken list on every recursion, exactly as `self.images[self.image_index]`
is re-evaluated; when it no longer resolves the IndexError of the subscript
escapes. -/
def load_image_loop (dec : String → Bool) :
    Nat → List String → List String → Int → LoadOutcome
  | 0, images, skiplist, _ => ⟨images, skiplist, none, true⟩
  | fuel + 1, images, skiplist, i =>
    match list_index_int images i with
    | none => ⟨images, skiplist, none, true⟩
    | some idx =>
      match images.get? idx with
      | none => ⟨images, skiplist, none, true⟩
      | some path =>
        if dec path then ⟨images, skiplist, some path, false⟩
        else load_image_loop dec fuel (images.eraseIdx idx) (skiplist ++ [path]) i

/-- `Viewer.load_image` (lines 496-518): a no-op when the index is `None`,
otherwise the failure cascade above.  Every failing iteration removes one
list entry, so `length + 1` units of fuel strictly bound the recursion and
the zero-fuel branch of the loop is never reached.  The display and scaling
code below line 518 does not touch the verified state. -/
def load_image (dec : String → Bool) (st : ViewerState) :
    ViewerState × Option String :=
  match st.image_index with
  | none => (st, none)
  | some i =>
    let out := load_image_loop dec (st.images.length + 1) st.images st.skiplist i
    ({ st with images := out.images, skiplist := out.skiplist },
     if out.fault then some "IndexError" else none)

/-- Truthiness of `self.filter` in the test on line 128: a non-empty string. -/
def filter_active : Option String → Bool
  | none => false
  | some f => !(f == "")

/-- The filter loop of `goto_image` (lines 129-136): up to `len(images)`
times, stop if the rating of the entry at the current index reaches the
filter, else step by `delta` modulo the length.  All indices reached here lie
in `[0, len)` because they are produced by `% len`, so the subscript on
line 130 is modelled by `getD` at `idx.toNat`. -/
def filter_loop (images : List String) (md : Store) (f : String) (delta : Int) :
    Nat → Int → Int
  | 0, idx => idx
  | n + 1, idx =>
    let name := basename (images.getD idx.toNat "")
    if pyStrLt (rating_for md name) f then
      filter_loop images md f delta n ((idx + delta) % (images.length : Int))
    else idx

/-- `Viewer.goto_image` (lines 119-138).  With `index = None` the body is
skipped entirely.  Otherwise `index % len(self.images)` raises
ZeroDivisionError on an empty list; with a truthy filter the filter loop
runs; finally `load_image` is called. -/
def goto_image (dec : String → Bool) (st : ViewerState) (index : Option Int)
    (delta : Int) : ViewerState × Option String :=
  match index with
  | none => (st, none)
  | some i =>
    if st.images.length = 0 then (st, some "ZeroDivisionError")
    else
      let i0 : Int := i % (st.images.length : Int)
      let idx : Int :=
        if filter_active st.filter then
          filter_loop st.images st.metadata (st.filter.getD "") delta
            st.images.length i0
        else i0
      load_image dec { st with image_index := some idx }

/-- `Viewer.on_home` (lines 161-164): go to index 0. -/
def on_home (dec : String → Bool) (st : ViewerState) :
    ViewerState × Option String :=
  goto_image dec st (some 0) 1

/-- `Viewer.on_end` (lines 166-169): go to index `len(self.images) - 1`. -/
def on_end (dec : String → Bool) (st : ViewerState) :
    ViewerState × Option String :=
  goto_image dec st (some ((st.images.length : Int) - 1)) 1

/-- `Viewer.on_left` (lines 172-175): `self.image_index - 1` raises TypeError
when the index is `None`. -/
def on_left (dec : String → Bool) (st : ViewerState) :
    ViewerState × Option String :=
  match st.image_index with
  | none => (st, some "TypeError")
  | some i => goto_image dec st (some (i - 1)) (-1)

/-- `Viewer.on_right` (lines 177-180): `self.image_index + 1` raises
TypeError when the index is `None`. -/
def on_right (dec : String → Bool) (st : ViewerState) :
    ViewerState × Option String :=
  match st.image_index with
  | none => (st, some "TypeError")
  | some i => goto_image dec st (some (i + 1)) 1

/-- `Viewer.on_rating` (lines 199-211): `self.images[self.image_index]`
raises TypeError on a `None` index and IndexError out of range; otherwise the
record keyed by the basename is created or updated.  The histogram redraw and
the write-through `save_metadata` call do not change the in-memory state. -/
def on_rating (st : ViewerState) (digit : String) :
    ViewerState × Option String :=
  match st.image_index with
  | none => (st, some "TypeError")
  | some i =>
    match list_index_int st.images i with
    | none => (st, some "IndexError")
    | some k =>
      let name := basename (st.images.getD k "")
      ({ st with metadata := dict_set_rating st.metadata name digit }, none)

/-- `Viewer.on_text` (lines 227-246): reading the current name on line 230
faults exactly like `on_rating`; a falsy reply (`None` or the empty string)
leaves the store untouched, otherwise the notes are overwritten. -/
def on_text (st : ViewerState) (reply : Option String) :
    ViewerState × Option String :=
  match st.image_index with
  | none => (st, some "TypeError")
  | some i =>
    match list_index_int st.images i with
    | none => (st, some "IndexError")
    | some k =>
      let name := basename (st.images.getD k "")
      match reply with
      | none => (st, none)
      | some r =>
        if r = "" then (st, none)
        else ({ st with metadata := dict_set_notes st.metadata name r }, none)

/-- Stable ascending insertion used to model `list.sort()` on strings
(line 584).  Python sorts in place, ascending and stable; on strings equal
elements are identical so insertion sort realises the same list. -/
def insertSorted (x : String) : List String → List String
  | [] => [x]
  | y :: ys => if pyStrLt y x then y :: insertSorted x ys else x :: y :: ys

/-- Model of `self.images.sort()`. -/
def pySort (l : List String) : List String :=
  l.foldr insertSorted []

/-- Lines 594-598 of viewer.py: the slideshow countdown at the end of each
tick. -/
def slideshow_step (dec : String → Bool) (st : ViewerState) :
    ViewerState × Option String :=
  if st.slideshow then
    let st1 := { st with slideshow_next := st.slideshow_next - 1 }
    if st1.slideshow_next = 0 then
      on_right dec { st1 with slideshow_next := st1.slideshow_ticks }
    else (st1, none)
  else (st, none)

/-- `Viewer.updater` (lines 551-601): bail out when updating is off, honour
the rescan flag, merge the new candidates, shuffle them unconditionally
(line 579 -- note that `randomise_on_load` is never consulted), move the
index to the length of the old list, extend, optionally sort the whole list,
load, and reset the slideshow; finally run the countdown.  The bell and the
re-arming of the timer have no modelled effect. -/
def updater (dec : String → Bool) (shuffle : List String → List String)
    (fsExists : String → Bool) (listing : List String) (st : ViewerState) :
    ViewerState × Option String :=
  if st.update = false then (st, none)
  else
    let st0 :=
      if st.rescan then
        { st with images := [], image_index := none, rescan := false }
      else st
    let new_images := merge fsExists listing st0.images st0.skiplist
    if new_images = [] then slideshow_step dec st0
    else
      let shuffled := shuffle new_images
      let st1 := { st0 with
        image_index := some (st0.images.length : Int),
        images := st0.images ++ shuffled }
      let st2 :=
        if st1.sort_on_load then { st1 with images := pySort st1.images }
        else st1
      match load_image dec st2 with
      | (st3, some e) => (st3, some e)
      | (st3, none) =>
        slideshow_step dec
          { st3 with slideshow := false, slideshow_next := st3.slideshow_ticks }

/-! ## The metadata table file

`save_metadata` writes `metadata.csv` through `csv.writer` with the default
dialect (delimiter `,`, quote char `"`, QUOTE_MINIMAL, line terminator CRLF)
on a file opened with `newline=''`.  `load_metadata` reads it through
`csv.reader`, but on a file opened in plain text mode, so the content first
passes through universal-newline translation.  Both library behaviours are
modelled below on character lists. -/

/-- QUOTE_MINIMAL: a field is quoted when it contains the delimiter, the
quote char, or a character of the line terminator. -/
def needsQuote (s : List Char) : Bool :=
  s.any (fun c => c = ',' || c = '"' || c = '\n' || c = '\r')

/-- The csv writer doubles every quote char inside a quoted field. -/
def escapeQuotes : List Char → List Char
  | [] => []
  | c :: cs =>
    if c = '"' then '"' :: '"' :: escapeQuotes cs else c :: escapeQuotes cs

/-- One serialized field, quoted exactly when QUOTE_MINIMAL requires it. -/
def serializeField (s : List Char) : List Char :=
  if needsQuote s then '"' :: (escapeQuotes s ++ ['"']) else s

/-- One `writer.writerow([image, rating, notes])` with the default CRLF
terminator (lines 631-638 of viewer.py). -/
def serializeRow (r : String × String × String) : List Char :=
  serializeField r.1.data ++ [','] ++ serializeField r.2.1.data ++ [','] ++
    serializeField r.2.2.data ++ ['\r', '\n']

/-- The whole file content written by `save_metadata`. -/
def serializeTable (rows : List (String × String × String)) : List Char :=
  (rows.map serializeRow).flatten

/-- One row as it appears after universal-newline translation: identical to
`serializeRow` except that the CRLF terminator has become a single LF.
Used to factor the round-trip argument. -/
def serializeRowLF (r : String × String × String) : List Char :=
  serializeField r.1.data ++ [','] ++ serializeField r.2.1.data ++ [','] ++
    serializeField r.2.2.data ++ ['\n']

/-- The whole translated file content. -/
def serializeTableLF (rows : List (String × String × String)) : List Char :=
  (rows.map serializeRowLF).flatten

/-- Universal-newline translation applied by reading a file opened in plain
text mode (`open(metadata_db, 'r')` on line 616): CRLF and lone CR both
become LF, everywhere in the stream, also inside quoted fields. -/
def univNewlines : List Char → List Char
  | [] => []
  | c :: cs =>
    if c = '\r' then
      match cs with
      | [] => ['\n']
      | c2 :: cs2 =>
        if c2 = '\n' then '\n' :: univNewlines cs2
        else '\n' :: univNewlines (c2 :: cs2)
    else c :: univNewlines cs

/-- How a csv field ended: at a delimiter, at a record end, or at the end of
the input. -/
inductive FieldEnd where
  | comma
  | newline
  | eof
deriving DecidableEq, Repr

/-- Parse an unquoted csv field from post-translation (LF-only) content:
everything up to the next delimiter or record end belongs to the field. -/
def parseUnquoted : List Char → List Char × FieldEnd × List Char
  | [] => ([], FieldEnd.eof, [])
  | c :: cs =>
    if c = ',' then ([], FieldEnd.comma, cs)
    else if c = '\n' then ([], FieldEnd.newline, cs)
    else
      let r := parseUnquoted cs
      (c :: r.1, r.2.1, r.2.2)

/-- Parse the rest of a quoted csv field (the opening quote is consumed):
a doubled quote is a literal quote, a single quote closes the field and the
remainder up to the delimiter is handled in unquoted mode, any other
character (delimiters and LF included) is field content. -/
def parseQuoted : List Char → List Char × FieldEnd × List Char
  | [] => ([], FieldEnd.eof, [])
  | c :: cs =>
    if c = '"' then
      match cs with
      | [] => ([], FieldEnd.eof, [])
      | c2 :: cs2 =>
        if c2 = '"' then
          let r := parseQuoted cs2
          ('"' :: r.1, r.2.1, r.2.2)
        else parseUnquoted (c2 :: cs2)
    else
      let r := parseQuoted cs
      (c :: r.1, r.2.1, r.2.2)

/-- Parse one csv field: quoting is recognised only at the field start. -/
def parseField : List Char → List Char × FieldEnd × List Char
  | [] => ([], FieldEnd.eof, [])
  | c :: cs => if c = '"' then parseQuoted cs else parseUnquoted (c :: cs)

/-- Parse the fields of one record.  The fuel bounds the number of fields;
`parseCsv` always supplies enough of it. -/
def parseRecordF : Nat → List Char → List (List Char) × Option (List Char)
  | 0, _ => ([], none)
  | n + 1, cs =>
    match parseField cs with
    | (f, FieldEnd.comma, rest) =>
      let r := parseRecordF n rest
      (f :: r.1, r.2)
    | (f, FieldEnd.newline, rest) => ([f], some rest)
    | (f, FieldEnd.eof, _) => ([f], none)

/-- Parse a sequence of records; a blank line yields an empty record, as
csv.reader does.  The fuel bounds the number of records. -/
def parseRecordsF : Nat → List Char → List (List (List Char))
  | 0, _ => []
  | n + 1, cs =>
    match cs with
    | [] => []
    | c :: cs' =>
      if c = '\n' then [] :: parseRecordsF n cs'
      else
        match parseRecordF (cs'.length + 2) (c :: cs') with
        | (fs, some rest) => fs :: parseRecordsF n rest
        | (fs, none) => [fs]

/-- csv.reader over a whole translated file content. -/
def parseCsv (content : List Char) : List (List String) :=
  (parseRecordsF (content.length + 1) content).map (fun r => r.map List.asString)

/-- Lines 619-623 of viewer.py: each row must unpack into exactly three
fields (a mismatch raises ValueError), the key is normalised to its basename
and assigned into the dict, so a later duplicate overwrites an earlier one. -/
def load_metadata_rows (rows : List (List String)) : Except String Store :=
  rows.foldlM
    (fun md row =>
      match row with
      | [image, rating, notes] =>
        Except.ok (dict_set md (basename image) ⟨rating, notes⟩)
      | _ => Except.error "ValueError")
    []

/-- `Viewer.load_metadata` applied to a raw file content (lines 603-623):
text-mode universal newlines, then csv parsing, then the row loop. -/
def load_metadata (raw : String) : Except String Store :=
  load_metadata_rows (parseCsv (univNewlines raw.data))

/-- `Viewer.save_metadata` (lines 625-638): nothing is written when the
store is empty, otherwise one row per record in dict order, rating before
notes. -/
def save_metadata (md : Store) : Option String :=
  if md = [] then none
  else some ⟨serializeTable (md.map (fun p => (p.1, p.2.rating, p.2.notes)))⟩

/-! ## EXIF extraction (`Viewer.get_exif_info`, lines 264-395)

The PIL values reaching the routine are modelled by `ExifValue`; the
formatting steps are translated below.  The only fallible steps of the
Python code are the two `bytes.decode` calls on lines 390 and 394, which are
modelled by `Except`; no exception handler exists anywhere in the routine,
so a decode failure propagates out of it. -/

inductive ExifValue where
  | rational (num den : Int)
  | intv (n : Int)
  | strv (s : String)
  | bytes (bs : List Nat)
deriving DecidableEq, Repr

/-- The f-string rendering of a modelled value.  PIL renders an IFDRational
in an f-string via `str(float(value))` -- producing `2.0`, `2.8`, `nan` and
so on, which is why line 340 can strip a trailing `.0` -- so the rendering
depends on the binary64 shortest-representation algorithm; it is not
re-modelled but passed in as the oracle `floatRepr n d`, standing for
`str(float(n / d))`. -/
def pyStr (floatRepr : Int → Int → String) : ExifValue → String
  | ExifValue.rational n d => floatRepr n d
  | ExifValue.intv n => toString n
  | ExifValue.strv s => s
  | ExifValue.bytes _ => "bytes"

/-- The Python comparison `rational < 1` on a PIL IFDRational: a denominator
of zero makes the value NaN, and NaN comparisons are always false; a
negative denominator flips the inequality. -/
def ratLtOne (n d : Int) : Bool :=
  if d = 0 then false
  else if 0 < d then n < d
  else d < n

/-- Lines 314-322: exposure times below one second render through
`fractions.Fraction` as the reduced fraction with an explicit denominator
(sign normalised into the numerator); other values -- a denominator-zero NaN
included -- fall to the bare f-string rendering. -/
def formatExposureTime (floatRepr : Int → Int → String) :
    ExifValue → ExifValue
  | ExifValue.rational n d =>
    if ratLtOne n d then
      let n1 := if d < 0 then -n else n
      let d1 := if d < 0 then -d else d
      let g : Int := Int.gcd n1 d1
      ExifValue.strv (toString (n1 / g) ++ "/" ++ toString (d1 / g) ++ " sec")
    else ExifValue.strv (floatRepr n d ++ " sec")
  | v => v

/-- Lines 324-333: the exposure bias is split into sign, whole part and
reduced fractional part; a zero whole part is elided next to a fraction and
a zero fraction is dropped.  A denominator of zero makes the IFDRational
NaN: `rational >= 0` is then false, the value is negated (still NaN), and
`int(rational)` on line 328 raises ValueError -- this step is fallible.  For
a nonzero denominator the sign is normalised into the numerator (as
`fractions.Fraction` does), `int()` truncates and the value is nonnegative
after the sign split, so truncation is floor division. -/
def formatEVStr (n d : Int) : String :=
  let n0 := if d < 0 then -n else n
  let d0 := if d < 0 then -d else d
  let sign := if 0 ≤ n0 then "+" else "-"
  let n1 := if 0 ≤ n0 then n0 else -n0
  let whole := n1 / d0
  let rem := n1 % d0
  if rem ≠ 0 then
    let g : Int := Int.gcd rem d0
    let fn := rem / g
    let fd := d0 / g
    let wstr := if whole ≠ 0 then toString whole else ""
    sign ++ wstr ++ " " ++ toString fn ++ "/" ++ toString fd
  else sign ++ toString whole

/-- The fallible exposure-bias formatter itself: ValueError at a
denominator-zero rational, the string of `formatEVStr` otherwise. -/
def formatEV : ExifValue → Except String ExifValue
  | ExifValue.rational n d =>
    if d = 0 then Except.error "ValueError"
    else Except.ok (ExifValue.strv (formatEVStr n d))
  | v => Except.ok v

/-- Line 336. -/
def formatFocalLength (floatRepr : Int → Int → String) (v : ExifValue) :
    ExifValue :=
  ExifValue.strv (pyStr floatRepr v ++ "mm")

/-- Does a character list end in the two characters `.0`? -/
def endsWithDot0 (s : List Char) : Bool :=
  match s.reverse with
  | '0' :: '.' :: _ => true
  | _ => false

/-- Lines 338-341. -/
def formatAperture (floatRepr : Int → Int → String) (v : ExifValue) :
    ExifValue :=
  let s := "f/" ++ pyStr floatRepr v
  ExifValue.strv (if endsWithDot0 s.data then ⟨s.data.dropLast.dropLast⟩ else s)

/-- Lines 343-344. -/
def formatISO (floatRepr : Int → Int → String) (v : ExifValue) : ExifValue :=
  ExifValue.strv (pyStr floatRepr v)

/-- Lines 346-356. -/
def formatMeteringMode : ExifValue → ExifValue
  | ExifValue.intv n =>
    ExifValue.strv
      (if n = 0 then "Unknown"
       else if n = 1 then "Average"
       else if n = 2 then "CenterWeightedAverage"
       else if n = 3 then "Spot"
       else if n = 4 then "MultiSpot"
       else if n = 5 then "Pattern"
       else if n = 6 then "Partial"
       else if n = 255 then "other"
       else "Undefined")
  | _ => ExifValue.strv "Undefined"

/-- Lines 358-370. -/
def formatProgram : ExifValue → ExifValue
  | ExifValue.intv n =>
    ExifValue.strv
      (if n = 0 then "Not defined"
       else if n = 1 then "Manual"
       else if n = 2 then "Normal"
       else if n = 3 then "Aperture"
       else if n = 4 then "Shutter"
       else if n = 5 then "Creative"
       else if n = 6 then "Action"
       else if n = 7 then "Portrait"
       else if n = 8 then "Landscape"
       else "Undefined")
  | _ => ExifValue.strv "Undefined"

/-- Lines 372-377. -/
def formatExposureMode : ExifValue → ExifValue
  | ExifValue.intv n =>
    ExifValue.strv
      (if n = 0 then "Auto"
       else if n = 1 then "Manual"
       else if n = 2 then "Auto bracket"
       else "Undefined")
  | _ => ExifValue.strv "Undefined"

/-- `bytes.decode('ascii')`: every byte must be below 128. -/
def asciiDecode : List Nat → Except String (List Char)
  | [] => Except.ok []
  | b :: bs =>
    if b < 128 then
      match asciiDecode bs with
      | Except.ok cs => Except.ok (Char.ofNat b :: cs)
      | Except.error e => Except.error e
    else Except.error "UnicodeDecodeError"

/-- Pair the bytes of a UTF-16 payload into code units; an odd byte count is
a decode error. -/
def utf16Units (bigEndian : Bool) : List Nat → Except String (List Nat)
  | [] => Except.ok []
  | [_] => Except.error "UnicodeDecodeError"
  | b1 :: b2 :: rest =>
    let u := if bigEndian then b1 * 256 + b2 else b2 * 256 + b1
    match utf16Units bigEndian rest with
    | Except.ok us => Except.ok (u :: us)
    | Except.error e => Except.error e

/-- Combine UTF-16 code units into characters; a lone or misordered
surrogate is a decode error. -/
def utf16Chars : List Nat → Except String (List Char)
  | [] => Except.ok []
  | u :: rest =>
    if 0xD800 ≤ u ∧ u ≤ 0xDBFF then
      match rest with
      | [] => Except.error "UnicodeDecodeError"
      | u2 :: rest2 =>
        if 0xDC00 ≤ u2 ∧ u2 ≤ 0xDFFF then
          match utf16Chars rest2 with
          | Except.ok cs =>
            Except.ok
              (Char.ofNat (0x10000 + (u - 0xD800) * 0x400 + (u2 - 0xDC00)) :: cs)
          | Except.error e => Except.error e
        else Except.error "UnicodeDecodeError"
    else if 0xDC00 ≤ u ∧ u ≤ 0xDFFF then Except.error "UnicodeDecodeError"
    else
      match utf16Chars rest with
      | Except.ok cs => Except.ok (Char.ofNat u :: cs)
      | Except.error e => Except.error e

/-- `bytes.decode('utf-16be' / 'utf-16le')`. -/
def utf16Decode (bigEndian : Bool) (bs : List Nat) : Except String String :=
  match utf16Units bigEndian bs with
  | Except.error e => Except.error e
  | Except.ok us =>
    match utf16Chars us with
    | Except.error e => Except.error e
    | Except.ok cs => Except.ok ⟨cs⟩

/-- The first eight bytes of a UserComment payload announcing UTF-16:
`b'UNICODE\x00'`. -/
def unicodeMarker : List Nat := [85, 78, 73, 67, 79, 68, 69, 0]

/-- The numeric EXIF tags the routine keeps from the private IFD, with their
user-friendly labels (lines 280-305). -/
def wantedTagName (tag : Nat) : Option String :=
  if tag = 37380 then some "EV"
  else if tag = 33434 then some "Exposure Time"
  else if tag = 37383 then some "Metering Mode"
  else if tag = 37386 then some "Focal Length"
  else if tag = 33437 then some "Aperture"
  else if tag = 34850 then some "Program"
  else if tag = 34855 then some "ISO"
  else if tag = 41986 then some "Exposure Mode"
  else if tag = 42036 then some "Lens"
  else if tag = 37510 then some "User Comment"
  else none

/-- Dict assignment on the label-keyed result map. -/
def exifSet (m : List (String × ExifValue)) (k : String) (v : ExifValue) :
    List (String × ExifValue) :=
  if m.any (fun p => p.1 == k) then
    m.map (fun p => if p.1 == k then (k, v) else p)
  else m ++ [(k, v)]

/-- Dict lookup on the label-keyed result map. -/
def exifFind (m : List (String × ExifValue)) (k : String) : Option ExifValue :=
  (m.find? (fun p => p.1 == k)).map (fun p => p.2)

/-- Apply one of the `if label in result:` fix-ups. -/
def exifFix (m : List (String × ExifValue)) (k : String)
    (f : ExifValue → ExifValue) : List (String × ExifValue) :=
  match exifFind m k with
  | none => m
  | some v => exifSet m k (f v)

/-- The label-keyed map before the fix-ups: the Model tag (0x0110) from the
baseline EXIF data, updated with the wanted tags of the private IFD
(lines 272-311). -/
def exifBuild (baseline ifd : List (Nat × ExifValue)) :
    List (String × ExifValue) :=
  let base := baseline.foldl
    (fun m p => if p.1 = 272 then exifSet m "Model" p.2 else m) []
  ifd.foldl
    (fun m p =>
      match wantedTagName p.1 with
      | some name => exifSet m name p.2
      | none => m)
    base

/-- Lines 379-395: decode a present UserComment according to its eight-byte
marker; `b'UNICODE\x00'` selects UTF-16 in the byte order of the container,
anything else falls through to ASCII.  A payload that is not bytes would
fail its slicing or decoding in Python; decode failures propagate because no
handler encloses them. -/
def decodeUserComment (endianBig : Bool) (m : List (String × ExifValue)) :
    Except String (List (String × ExifValue)) :=
  match exifFind m "User Comment" with
  | none => Except.ok m
  | some (ExifValue.bytes bs) =>
    let enc := bs.take 8
    let data := bs.drop 8
    if enc = unicodeMarker then
      match utf16Decode endianBig data with
      | Except.ok s => Except.ok (exifSet m "User Comment" (ExifValue.strv s))
      | Except.error e => Except.error e
    else
      match asciiDecode data with
      | Except.ok cs =>
        Except.ok (exifSet m "User Comment" (ExifValue.strv ⟨cs⟩))
      | Except.error e => Except.error e
  | some _ => Except.error "TypeError"

/-- The `if 'EV' in result:` fix-up (lines 324-333): the one value fix-up
that can raise, because `int(rational)` on line 328 raises ValueError when
the IFDRational is the NaN that a zero denominator yields. -/
def exifFixEV (m : List (String × ExifValue)) :
    Except String (List (String × ExifValue)) :=
  match exifFind m "EV" with
  | none => Except.ok m
  | some v =>
    match formatEV v with
    | Except.ok v2 => Except.ok (exifSet m "EV" v2)
    | Except.error e => Except.error e

/-- The eight value fix-ups of lines 314-377, applied in source order.  All
are total except the exposure-bias step, whose ValueError propagates -- no
handler encloses the chain. -/
def exifFixAll (floatRepr : Int → Int → String)
    (m : List (String × ExifValue)) :
    Except String (List (String × ExifValue)) :=
  match exifFixEV (exifFix m "Exposure Time" (formatExposureTime floatRepr))
    with
  | Except.error e => Except.error e
  | Except.ok m2 =>
    Except.ok (exifFix (exifFix (exifFix (exifFix (exifFix (exifFix m2
      "Focal Length" (formatFocalLength floatRepr))
      "Aperture" (formatAperture floatRepr))
      "ISO" (formatISO floatRepr))
      "Metering Mode" formatMeteringMode)
      "Program" formatProgram)
      "Exposure Mode" formatExposureMode)

/-- `Viewer.get_exif_info` (lines 264-395): build the wanted-tag map, apply
the per-tag fix-ups -- fallible at the exposure-bias step -- then decode the
user comment -- the other step that can raise -- and render every remaining
value as line 485 does.  `floatRepr` is the rational-rendering oracle of
`pyStr`. -/
def get_exif_info (floatRepr : Int → Int → String)
    (baseline ifd : List (Nat × ExifValue)) (endianBig : Bool) :
    Except String (List (String × String)) :=
  match exifFixAll floatRepr (exifBuild baseline ifd) with
  | Except.error e => Except.error e
  | Except.ok m8 =>
    match decodeUserComment endianBig m8 with
    | Except.ok m9 =>
      Except.ok (m9.map (fun p => (p.1, pyStr floatRepr p.2)))
    | Except.error e => Except.error e

/-! ## Helper lemmas -/

theorem load_image_image_index (dec : String → Bool) (st : ViewerState) :
    (load_image dec st).1.image_index = st.image_index := by
  cases h : st.image_index with
  | none => simp [load_image, h]
  | some i => simp [load_image, h]

theorem mem_merge {fsExists : String → Bool} {paths images skiplist : List String}
    {p : String} :
    p ∈ merge fsExists paths images skiplist ↔
      p ∈ paths ∧ p ∉ images ∧ p ∉ skiplist ∧ fsExists p = true := by
  have hc : ∀ (l : List String), l.contains p = false ↔ p ∉ l := by
    intro l
    rw [← Bool.not_eq_true, List.elem_iff]
  simp only [merge, List.mem_filter, Bool.and_eq_true, Bool.not_eq_true', hc]
  tauto

theorem load_image_loop_spec (dec : String → Bool) :
    ∀ (fuel : Nat) (images skiplist : List String) (idx : Nat),
      idx ≤ images.length → images.length - idx < fuel →
      load_image_loop dec fuel images skiplist (idx : Int) =
        ⟨images.take idx ++ (images.drop idx).dropWhile (fun p => !dec p),
         skiplist ++ (images.drop idx).takeWhile (fun p => !dec p),
         ((images.drop idx).dropWhile (fun p => !dec p)).head?,
         ((images.drop idx).dropWhile (fun p => !dec p)).isEmpty⟩ := by
  intro fuel
  induction fuel with
  | zero => intro images skiplist idx h1 h2; omega
  | succ f ih =>
    intro images skiplist idx h1 h2
    by_cases hlt : idx < images.length
    · have hres : list_index_int images (idx : Int) = some idx := by
        unfold list_index_int
        rw [if_pos (Int.natCast_nonneg idx), if_pos (by exact_mod_cast hlt)]
        simp
      have hget : images.get? idx = some (images.get ⟨idx, hlt⟩) :=
        List.get?_eq_get hlt
      have hdrop : images.drop idx = images.get ⟨idx, hlt⟩ :: images.drop (idx + 1) :=
        List.drop_eq_get_cons hlt
      by_cases hdec : dec (images.get ⟨idx, hlt⟩)
      · simp only [load_image_loop, hres, hget, hdec, if_true]
        rw [hdrop]
        simp only [List.dropWhile_cons, List.takeWhile_cons, hdec,
          Bool.not_true, Bool.false_eq_true, if_false, List.append_nil,
          List.head?_cons, List.isEmpty_cons]
        rw [← hdrop, List.take_append_drop]
      · have hA : (images.take idx).length = idx := by
          rw [List.length_take]; omega
        have htake : (images.eraseIdx idx).take idx = images.take idx := by
          rw [List.eraseIdx_eq_take_drop_succ,
            List.take_append_of_le_length (le_of_eq hA.symm)]
          simp [List.take_take]
        have hdrop2 : (images.eraseIdx idx).drop idx = images.drop (idx + 1) := by
          rw [List.eraseIdx_eq_take_drop_succ,
            List.drop_append_of_le_length (le_of_eq hA.symm)]
          simp [List.drop_take]
        have hlen : (images.eraseIdx idx).length = images.length - 1 := by
          rw [List.eraseIdx_eq_take_drop_succ, List.length_append,
            List.length_drop, hA]
          omega
        simp only [load_image_loop, hres, hget, hdec, if_false]
        rw [ih (images.eraseIdx idx) (skiplist ++ [images.get ⟨idx, hlt⟩]) idx
          (by omega) (by omega), htake, hdrop2, hdrop]
        simp only [List.dropWhile_cons, List.takeWhile_cons, hdec,
          Bool.not_false, if_true, List.append_assoc, List.singleton_append]
        simp
    · have hnone : list_index_int images (idx : Int) = none := by
        unfold list_index_int
        rw [if_pos (Int.natCast_nonneg idx), if_neg (by exact_mod_cast hlt)]
      have hidx : images.length = idx := by omega
      have hdropnil : images.drop idx = [] :=
        List.drop_eq_nil_of_le (by omega)
      have htakeall : images.take idx = images :=
        List.take_of_length_le (by omega)
      simp only [load_image_loop, hnone]
      rw [hdropnil, htakeall]
      simp

theorem load_image_ok (dec : String → Bool) (st : ViewerState) (i : Int)
    (hidx : st.image_index = some i) (h0 : 0 ≤ i)
    (hlt : i < (st.images.length : Int)) (hdec : ∀ p, dec p = true) :
    load_image dec st = (st, none) := by
  have hlt' : i.toNat < st.images.length := by omega
  have hres : list_index_int st.images i = some i.toNat := by
    unfold list_index_int
    rw [if_pos h0, if_pos hlt]
  have hget : st.images.get? i.toNat = some (st.images.get ⟨i.toNat, hlt'⟩) :=
    List.get?_eq_get hlt'
  unfold load_image
  rw [hidx]
  have hloop : load_image_loop dec (st.images.length + 1) st.images
      st.skiplist i
      = ⟨st.images, st.skiplist, some (st.images.get ⟨i.toNat, hlt'⟩), false⟩ := by
    simp only [load_image_loop, hres, hget, hdec, if_true]
  simp only [hloop]
  simp
  rw [← hidx]

theorem insertSorted_length (x : String) (l : List String) :
    (insertSorted x l).length = l.length + 1 := by
  induction l with
  | nil => rfl
  | cons y ys ih =>
    simp only [insertSorted]
    split
    · simp [ih]
    · simp

theorem pySort_length (l : List String) : (pySort l).length = l.length := by
  induction l with
  | nil => rfl
  | cons x xs ih =>
    show (insertSorted x (pySort xs)).length = xs.length + 1
    rw [insertSorted_length, ih]

theorem slideshow_step_off (dec : String → Bool) (st : ViewerState)
    (h : st.slideshow = false) : slideshow_step dec st = (st, none) := by
  simp [slideshow_step, h]

theorem find?_map_set (k k2 : String) (v : MetadataRecord)
    (md : List (String × MetadataRecord)) :
    List.find? (fun p => p.1 == k2)
        (md.map (fun p => if p.1 == k then (k, v) else p))
      = if k2 = k then
          (if md.any (fun p => p.1 == k) then some (k, v) else none)
        else List.find? (fun p => p.1 == k2) md := by
  induction md with
  | nil => simp
  | cons a md ih =>
    simp only [List.map_cons, List.any_cons]
    by_cases hb : (a.1 == k) = true
    · rw [if_pos hb]
      by_cases hk : k2 = k
      · have hb2 : (k == k2) = true := beq_iff_eq.mpr hk.symm
        simp [List.find?_cons, hb2, hk, hb]
      · have hb2 : (k == k2) = false := by
          rw [beq_eq_false_iff_ne]
          exact fun h => hk (Eq.symm h)
        have hb3 : (a.1 == k2) = false := by
          rw [beq_eq_false_iff_ne]
          rw [beq_iff_eq] at hb
          rw [hb]
          exact fun h => hk (Eq.symm h)
        simp only [List.find?_cons, hb2, hb3, ih, if_neg hk]
    · rw [if_neg hb]
      rw [Bool.not_eq_true] at hb
      by_cases hb3 : (a.1 == k2) = true
      · have hk : ¬ k2 = k := by
          intro h
          rw [beq_iff_eq] at hb3
          rw [h] at hb3
          rw [← hb3] at hb
          simp at hb
        simp [List.find?_cons, hb3, hk]
      · rw [Bool.not_eq_true] at hb3
        simp only [List.find?_cons, hb3, ih, hb, Bool.false_or]

theorem dict_find_dict_set (md : Store) (k k2 : String) (v : MetadataRecord) :
    dict_find (dict_set md k v) k2
      = if k2 = k then some v else dict_find md k2 := by
  unfold dict_set dict_find
  by_cases hany : md.any (fun p => p.1 == k) = true
  · rw [if_pos hany, find?_map_set, hany]
    by_cases hk : k2 = k
    · simp [hk]
    · simp [hk]
  · rw [if_neg hany, List.find?_append]
    by_cases hk : k2 = k
    · subst hk
      have hnone : List.find? (fun p => p.1 == k2) md = none := by
        rw [List.find?_eq_none]
        intro x hx hpx
        exact hany (List.any_eq_true.mpr ⟨x, hx, hpx⟩)
      simp [hnone, List.find?_cons, Option.or]
    · have hb2 : (k == k2) = false := by
        rw [beq_eq_false_iff_ne]
        exact fun h => hk (Eq.symm h)
      simp only [List.find?_cons, hb2, if_neg hk]
      cases hfound : List.find? (fun p => p.1 == k2) md with
      | none => simp [Option.or]
      | some r => simp [Option.or]

theorem load_metadata_rows_aux (rows : List (String × String × String)) :
    ∀ md0 : Store,
      ((rows.map (fun r => [r.1, r.2.1, r.2.2])).foldlM
          (fun md row =>
            match row with
            | [image, rating, notes] =>
              Except.ok (dict_set md (basename image) ⟨rating, notes⟩)
            | _ => Except.error "ValueError") md0 : Except String Store)
        = Except.ok (rows.foldl
            (fun md r => dict_set md (basename r.1) ⟨r.2.1, r.2.2⟩) md0) := by
  induction rows with
  | nil => intro md0; rfl
  | cons a rows ih =>
    intro md0
    simp only [List.map_cons, List.foldlM_cons, List.foldl_cons]
    exact ih _

theorem dict_find_load_fold (rows : List (String × String × String)) :
    ∀ (md0 : Store) (key : String),
      dict_find
          (rows.foldl (fun md r => dict_set md (basename r.1) ⟨r.2.1, r.2.2⟩)
            md0) key
        = match rows.reverse.find? (fun r => basename r.1 == key) with
          | some r => some ⟨r.2.1, r.2.2⟩
          | none => dict_find md0 key := by
  induction rows with
  | nil => intro md0 key; simp
  | cons a rows ih =>
    intro md0 key
    rw [List.foldl_cons, ih, List.reverse_cons, List.find?_append]
    cases hfind : rows.reverse.find? (fun r => basename r.1 == key) with
    | some r => simp [Option.or]
    | none =>
      simp only [Option.or, dict_find_dict_set]
      by_cases hk : key = basename a.1
      · simp [List.find?_cons, beq_iff_eq, hk]
      · have hb : (basename a.1 == key) = false := by
          rw [beq_eq_false_iff_ne]
          exact fun h => hk (Eq.symm h)
        simp [List.find?_cons, hb, hk]

theorem filter_loop_range (images : List String) (md : Store) (f : String)
    (delta : Int) (hlen : 0 < images.length) :
    ∀ (n : Nat) (idx : Int), 0 ≤ idx → idx < images.length →
      0 ≤ filter_loop images md f delta n idx ∧
      filter_loop images md f delta n idx < images.length := by
  intro n
  induction n with
  | zero =>
    intro idx h0 h1
    exact ⟨h0, h1⟩
  | succ m ih =>
    intro idx h0 h1
    simp only [filter_loop]
    split
    · apply ih
      · exact Int.emod_nonneg _ (by omega)
      · exact Int.emod_lt_of_pos _ (by exact_mod_cast hlen)
    · exact ⟨h0, h1⟩

theorem filter_loop_no_match (images : List String) (md : Store) (f : String)
    (delta : Int) (hlen : 0 < images.length)
    (hno : ∀ j : Nat, j < images.length →
      pyStrLt (rating_for md (basename (images.getD j ""))) f = true) :
    ∀ (n : Nat) (idx : Int), 0 ≤ idx → idx < images.length →
      filter_loop images md f delta n idx
        = (idx + n * delta) % (images.length : Int) := by
  intro n
  induction n with
  | zero =>
    intro idx h0 h1
    simp only [filter_loop, Nat.cast_zero, zero_mul, add_zero]
    rw [Int.emod_eq_of_lt h0 h1]
  | succ m ih =>
    intro idx h0 h1
    simp only [filter_loop]
    rw [if_pos (hno idx.toNat (by omega))]
    rw [ih ((idx + delta) % (images.length : Int))
      (Int.emod_nonneg _ (by omega))
      (Int.emod_lt_of_pos _ (by exact_mod_cast hlen))]
    rw [Int.emod_add_emod]
    congr 1
    push_cast
    ring

theorem filter_loop_reaches (images : List String) (md : Store) (f : String)
    (delta : Int) (hlen : 0 < images.length) :
    ∀ (n : Nat) (idx : Int), 0 ≤ idx → idx < images.length →
      (∃ m : Nat, m < n ∧
        pyStrLt (rating_for md (basename (images.getD
          (((idx + m * delta) % (images.length : Int)).toNat) ""))) f
          = false) →
      pyStrLt (rating_for md (basename (images.getD
        ((filter_loop images md f delta n idx).toNat) ""))) f = false := by
  intro n
  induction n with
  | zero =>
    rintro idx h0 h1 ⟨m, hm, _⟩
    omega
  | succ M ih =>
    rintro idx h0 h1 ⟨m, hm, hq⟩
    simp only [filter_loop]
    by_cases hcur :
        pyStrLt (rating_for md (basename (images.getD idx.toNat ""))) f = true
    · rw [if_pos hcur]
      apply ih _ (Int.emod_nonneg _ (by omega))
        (Int.emod_lt_of_pos _ (by exact_mod_cast hlen))
      cases m with
      | zero =>
        exfalso
        simp only [Nat.cast_zero, zero_mul, add_zero] at hq
        rw [Int.emod_eq_of_lt h0 h1] at hq
        rw [hq] at hcur
        exact Bool.false_ne_true hcur
      | succ m' =>
        refine ⟨m', by omega, ?_⟩
        have harith : ((idx + delta) % (images.length : Int)
              + (m' : Int) * delta) % (images.length : Int)
            = (idx + ((m' : Nat) + 1 : Nat) * delta) % (images.length : Int) := by
          rw [Int.emod_add_emod]
          congr 1
          push_cast
          ring
        rw [harith]
        exact hq
    · rw [if_neg hcur]
      rw [Bool.not_eq_true] at hcur
      exact hcur

theorem index_reachable (L : Nat) (hL : 0 < L) (i0 : Int) (h0 : 0 ≤ i0)
    (h1 : i0 < L) (k : Nat) (hk : k < L) (delta : Int)
    (hdelta : delta = 1 ∨ delta = -1) :
    ∃ m : Nat, m < L ∧ (i0 + m * delta) % (L : Int) = k := by
  have hLz : (L : Int) ≠ 0 := by omega
  have hLpos : (0 : Int) < L := by exact_mod_cast hL
  rcases hdelta with h | h
  · subst h
    refine ⟨(((k : Int) - i0) % (L : Int)).toNat, ?_, ?_⟩
    · have := Int.emod_lt_of_pos ((k : Int) - i0) hLpos
      have := Int.emod_nonneg ((k : Int) - i0) hLz
      omega
    · have hge : 0 ≤ ((k : Int) - i0) % (L : Int) :=
        Int.emod_nonneg _ hLz
      rw [Int.toNat_of_nonneg hge, mul_one, Int.add_emod_emod,
        add_sub_cancel, Int.emod_eq_of_lt (by omega) (by exact_mod_cast hk)]
  · subst h
    refine ⟨((i0 - (k : Int)) % (L : Int)).toNat, ?_, ?_⟩
    · have := Int.emod_lt_of_pos (i0 - (k : Int)) hLpos
      have := Int.emod_nonneg (i0 - (k : Int)) hLz
      omega
    · have hge : 0 ≤ (i0 - (k : Int)) % (L : Int) :=
        Int.emod_nonneg _ hLz
      rw [Int.toNat_of_nonneg hge, mul_neg_one, ← Int.sub_eq_add_neg]
      rw [Int.sub_emod, Int.emod_emod_of_dvd _ dvd_rfl, ← Int.sub_emod,
        sub_sub_cancel, Int.emod_eq_of_lt (by omega) (by exact_mod_cast hk)]

theorem find?_map_set_ne (k k2 : String) (v : ExifValue) (hne : k2 ≠ k) :
    ∀ m : List (String × ExifValue),
      List.find? (fun p => p.1 == k2)
          (m.map (fun p => if p.1 == k then (k, v) else p))
        = List.find? (fun p => p.1 == k2) m := by
  intro m
  induction m with
  | nil => rfl
  | cons a m ih =>
    simp only [List.map_cons, List.find?_cons]
    by_cases hb : (a.1 == k) = true
    · rw [if_pos hb]
      have h1 : (k == k2) = false := by
        rw [beq_eq_false_iff_ne]
        exact fun h => hne (Eq.symm h)
      have h2 : (a.1 == k2) = false := by
        rw [beq_eq_false_iff_ne]
        rw [beq_iff_eq] at hb
        rw [hb]
        exact fun h => hne (Eq.symm h)
      rw [h1, h2]
      exact ih
    · rw [if_neg hb]
      cases h3 : (a.1 == k2) with
      | true => rfl
      | false => exact ih

theorem exifFind_set_ne (m : List (String × ExifValue)) (k k2 : String)
    (v : ExifValue) (hne : k2 ≠ k) :
    exifFind (exifSet m k v) k2 = exifFind m k2 := by
  unfold exifSet exifFind
  by_cases hany : m.any (fun p => p.1 == k) = true
  · rw [if_pos hany, find?_map_set_ne k k2 v hne]
  · rw [if_neg hany, List.find?_append]
    have h1 : (k == k2) = false := by
      rw [beq_eq_false_iff_ne]
      exact fun h => hne (Eq.symm h)
    simp only [List.find?_cons, h1, List.find?_nil]
    cases h : List.find? (fun p => p.1 == k2) m with
    | none => simp [Option.or]
    | some r => simp [Option.or]

theorem exifFix_find_ne (m : List (String × ExifValue)) (k k2 : String)
    (fmt : ExifValue → ExifValue) (hne : k2 ≠ k)
    (hm : exifFind m k2 = none) : exifFind (exifFix m k fmt) k2 = none := by
  unfold exifFix
  cases hv : exifFind m k with
  | none => exact hm
  | some v => rw [exifFind_set_ne m k k2 (fmt v) hne]; exact hm

theorem exifFix_find_other (m : List (String × ExifValue)) (k k2 : String)
    (fmt : ExifValue → ExifValue) (hne : k2 ≠ k) :
    exifFind (exifFix m k fmt) k2 = exifFind m k2 := by
  unfold exifFix
  cases hv : exifFind m k with
  | none => rfl
  | some v => exact exifFind_set_ne m k k2 (fmt v) hne

theorem find?_map_set_self (k : String) (v : ExifValue)
    (m : List (String × ExifValue))
    (hany : m.any (fun p => p.1 == k) = true) :
    List.find? (fun p => p.1 == k)
      (m.map (fun p => if p.1 == k then (k, v) else p)) = some (k, v) := by
  induction m with
  | nil => simp at hany
  | cons a m ih =>
    cases h1 : (a.1 == k) with
    | true =>
      have ha : (if (a.1 == k) = true then ((k, v) : String × ExifValue)
          else a) = (k, v) := by
        simp [h1]
      rw [List.map_cons, ha, List.find?_cons]
      simp
    | false =>
      have ha : (if (a.1 == k) = true then ((k, v) : String × ExifValue)
          else a) = a := by
        simp [h1]
      rw [List.map_cons, ha, List.find?_cons]
      simp only [h1]
      apply ih
      simp only [List.any_cons, h1, Bool.false_or] at hany
      exact hany

theorem exifFind_set_self (m : List (String × ExifValue)) (k : String)
    (v : ExifValue) : exifFind (exifSet m k v) k = some v := by
  unfold exifSet exifFind
  by_cases hany : m.any (fun p => p.1 == k) = true
  · rw [if_pos hany, find?_map_set_self k v m hany]
    rfl
  · rw [if_neg hany, List.find?_append]
    have hnone : m.find? (fun p => p.1 == k) = none := by
      rw [List.find?_eq_none]
      intro p hp hpk
      exact hany (List.any_eq_true.mpr ⟨p, hp, hpk⟩)
    rw [hnone]
    simp [List.find?_cons, Option.or]

theorem wantedTagName_user_comment (t : Nat)
    (h : wantedTagName t = some "User Comment") : t = 37510 := by
  unfold wantedTagName at h
  split_ifs at h <;> simp_all

theorem wantedTagName_ev (t : Nat)
    (h : wantedTagName t = some "EV") : t = 37380 := by
  unfold wantedTagName at h
  split_ifs at h <;> simp_all

theorem exifBuild_base_none (baseline : List (Nat × ExifValue)) (key : String)
    (hk : ¬ key = "Model") :
    exifFind (baseline.foldl
      (fun m p => if p.1 = 272 then exifSet m "Model" p.2 else m) []) key
      = none := by
  have hbase : ∀ (l : List (Nat × ExifValue))
      (acc : List (String × ExifValue)),
      exifFind acc key = none →
      exifFind (l.foldl
        (fun m p => if p.1 = 272 then exifSet m "Model" p.2 else m) acc)
        key = none := by
    intro l
    induction l with
    | nil => intro acc hacc; exact hacc
    | cons a l ih =>
      intro acc hacc
      simp only [List.foldl_cons]
      apply ih
      by_cases ha : a.1 = 272
      · rw [if_pos ha, exifFind_set_ne _ _ _ _ hk]
        exact hacc
      · rw [if_neg ha]
        exact hacc
  exact hbase baseline [] rfl

theorem exifFind_ifd_fold_mem :
    ∀ (l : List (Nat × ExifValue)) (acc : List (String × ExifValue))
      (key : String) (v : ExifValue),
      exifFind (l.foldl
        (fun m p =>
          match wantedTagName p.1 with
          | some name => exifSet m name p.2
          | none => m) acc) key = some v →
      (∃ p ∈ l, wantedTagName p.1 = some key ∧ p.2 = v) ∨
        exifFind acc key = some v := by
  intro l
  induction l with
  | nil => intro acc key v h; exact Or.inr h
  | cons a l ih =>
    intro acc key v h
    simp only [List.foldl_cons] at h
    rcases ih _ key v h with h1 | h1
    · obtain ⟨p, hp, hw, hpv⟩ := h1
      exact Or.inl ⟨p, List.mem_cons_of_mem a hp, hw, hpv⟩
    · cases hw : wantedTagName a.1 with
      | none => rw [hw] at h1; exact Or.inr h1
      | some name =>
        rw [hw] at h1
        by_cases hn : name = key
        · subst hn
          rw [exifFind_set_self] at h1
          exact Or.inl ⟨a, List.mem_cons_self a l, hw, Option.some.inj h1⟩
        · rw [exifFind_set_ne _ _ _ _ (fun hc => hn (Eq.symm hc))] at h1
          exact Or.inr h1

theorem formatEV_rational (n d : Int) :
    formatEV (ExifValue.rational n d)
      = if d = 0 then Except.error "ValueError"
        else Except.ok (ExifValue.strv (formatEVStr n d)) := rfl

theorem exifBuild_ev_ok (baseline ifd : List (Nat × ExifValue))
    (hEV : ∀ n : Int, (37380, ExifValue.rational n 0) ∉ ifd)
    (v : ExifValue)
    (hfind : exifFind (exifBuild baseline ifd) "EV" = some v) :
    ∃ v2, formatEV v = Except.ok v2 := by
  unfold exifBuild at hfind
  rcases exifFind_ifd_fold_mem ifd _ "EV" v hfind with h1 | hbase
  · obtain ⟨p, hp, hw, hpv⟩ := h1
    cases hv : p.2 with
    | rational n d =>
      by_cases hd : d = 0
      · exfalso
        have ht : p.1 = 37380 := wantedTagName_ev p.1 hw
        have hpe : p = (37380, ExifValue.rational n 0) :=
          Prod.ext_iff.mpr ⟨ht, by rw [hv, hd]⟩
        exact hEV n (hpe ▸ hp)
      · rw [← hpv, hv]
        exact ⟨ExifValue.strv (formatEVStr n d), by
          rw [formatEV_rational, if_neg hd]⟩
    | intv k => rw [← hpv, hv]; exact ⟨_, rfl⟩
    | strv s => rw [← hpv, hv]; exact ⟨_, rfl⟩
    | bytes bs => rw [← hpv, hv]; exact ⟨_, rfl⟩
  · rw [exifBuild_base_none baseline "EV" (by decide)] at hbase
    exact absurd hbase (by simp)

theorem exifBuild_no_uc (baseline ifd : List (Nat × ExifValue))
    (h : ∀ v, (37510, v) ∉ ifd) :
    exifFind (exifBuild baseline ifd) "User Comment" = none := by
  unfold exifBuild
  have hbase : ∀ (l : List (Nat × ExifValue))
      (acc : List (String × ExifValue)),
      exifFind acc "User Comment" = none →
      exifFind (l.foldl
        (fun m p => if p.1 = 272 then exifSet m "Model" p.2 else m) acc)
        "User Comment" = none := by
    intro l
    induction l with
    | nil => intro acc hacc; exact hacc
    | cons a l ih =>
      intro acc hacc
      simp only [List.foldl_cons]
      apply ih
      by_cases ha : a.1 = 272
      · rw [if_pos ha]
        rw [exifFind_set_ne _ _ _ _ (by decide)]
        exact hacc
      · rw [if_neg ha]
        exact hacc
  have hifd : ∀ (l : List (Nat × ExifValue))
      (acc : List (String × ExifValue)),
      (∀ v, (37510, v) ∉ l) →
      exifFind acc "User Comment" = none →
      exifFind (l.foldl
        (fun m p =>
          match wantedTagName p.1 with
          | some name => exifSet m name p.2
          | none => m) acc) "User Comment" = none := by
    intro l
    induction l with
    | nil => intro acc _ hacc; exact hacc
    | cons a l ih =>
      intro acc hnot hacc
      simp only [List.foldl_cons]
      apply ih _ (fun v hv => hnot v (List.mem_cons_of_mem _ hv))
      cases hw : wantedTagName a.1 with
      | none => exact hacc
      | some name =>
        by_cases hn : name = "User Comment"
        · exfalso
          subst hn
          have ht : a.1 = 37510 := wantedTagName_user_comment a.1 hw
          have ha : a = (37510, a.2) := by
            rw [← ht]
          exact hnot a.2 (ha ▸ List.mem_cons_self a l)
        · rw [exifFind_set_ne _ _ _ _ (fun hcontra => hn (Eq.symm hcontra))]
          exact hacc
  exact hifd ifd _ h (hbase baseline [] rfl)

theorem get_exif_info_ok_of (floatRepr : Int → Int → String)
    (baseline ifd : List (Nat × ExifValue)) (endianBig : Bool)
    (m2 : List (String × ExifValue))
    (hstep : exifFixEV (exifFix (exifBuild baseline ifd) "Exposure Time"
      (formatExposureTime floatRepr)) = Except.ok m2)
    (hUCm2 : exifFind m2 "User Comment" = none) :
    ∃ m, get_exif_info floatRepr baseline ifd endianBig = Except.ok m := by
  have h8 : exifFind (exifFix (exifFix (exifFix (exifFix (exifFix (exifFix m2
      "Focal Length" (formatFocalLength floatRepr))
      "Aperture" (formatAperture floatRepr))
      "ISO" (formatISO floatRepr))
      "Metering Mode" formatMeteringMode)
      "Program" formatProgram)
      "Exposure Mode" formatExposureMode) "User Comment" = none :=
    exifFix_find_ne _ "Exposure Mode" _ formatExposureMode (by decide)
      (exifFix_find_ne _ "Program" _ formatProgram (by decide)
        (exifFix_find_ne _ "Metering Mode" _ formatMeteringMode (by decide)
          (exifFix_find_ne _ "ISO" _ (formatISO floatRepr) (by decide)
            (exifFix_find_ne _ "Aperture" _ (formatAperture floatRepr)
              (by decide)
              (exifFix_find_ne _ "Focal Length" _ (formatFocalLength floatRepr)
                (by decide) hUCm2)))))
  have hAll : exifFixAll floatRepr (exifBuild baseline ifd)
      = Except.ok (exifFix (exifFix (exifFix (exifFix (exifFix (exifFix m2
        "Focal Length" (formatFocalLength floatRepr))
        "Aperture" (formatAperture floatRepr))
        "ISO" (formatISO floatRepr))
        "Metering Mode" formatMeteringMode)
        "Program" formatProgram)
        "Exposure Mode" formatExposureMode) := by
    unfold exifFixAll
    rw [hstep]
  have hUC : decodeUserComment endianBig
      (exifFix (exifFix (exifFix (exifFix (exifFix (exifFix m2
        "Focal Length" (formatFocalLength floatRepr))
        "Aperture" (formatAperture floatRepr))
        "ISO" (formatISO floatRepr))
        "Metering Mode" formatMeteringMode)
        "Program" formatProgram)
        "Exposure Mode" formatExposureMode)
      = Except.ok (exifFix (exifFix (exifFix (exifFix (exifFix (exifFix m2
        "Focal Length" (formatFocalLength floatRepr))
        "Aperture" (formatAperture floatRepr))
        "ISO" (formatISO floatRepr))
        "Metering Mode" formatMeteringMode)
        "Program" formatProgram)
        "Exposure Mode" formatExposureMode) := by
    unfold decodeUserComment
    rw [h8]
  refine ⟨(exifFix (exifFix (exifFix (exifFix (exifFix (exifFix m2
    "Focal Length" (formatFocalLength floatRepr))
    "Aperture" (formatAperture floatRepr))
    "ISO" (formatISO floatRepr))
    "Metering Mode" formatMeteringMode)
    "Program" formatProgram)
    "Exposure Mode" formatExposureMode).map
    (fun p => (p.1, pyStr floatRepr p.2)), ?_⟩
  unfold get_exif_info
  simp only [hAll, hUC]

theorem get_exif_info_no_uc (floatRepr : Int → Int → String)
    (baseline ifd : List (Nat × ExifValue)) (endianBig : Bool)
    (h : ∀ v, (37510, v) ∉ ifd)
    (hEV : ∀ n : Int, (37380, ExifValue.rational n 0) ∉ ifd) :
    ∃ m, get_exif_info floatRepr baseline ifd endianBig = Except.ok m := by
  have h0 := exifBuild_no_uc baseline ifd h
  have hub1 : exifFind (exifFix (exifBuild baseline ifd) "Exposure Time"
      (formatExposureTime floatRepr)) "User Comment" = none :=
    exifFix_find_ne _ "Exposure Time" _ (formatExposureTime floatRepr)
      (by decide) h0
  cases hfind : exifFind (exifFix (exifBuild baseline ifd) "Exposure Time"
      (formatExposureTime floatRepr)) "EV" with
  | none =>
    have hstep : exifFixEV (exifFix (exifBuild baseline ifd) "Exposure Time"
        (formatExposureTime floatRepr))
        = Except.ok (exifFix (exifBuild baseline ifd) "Exposure Time"
          (formatExposureTime floatRepr)) := by
      unfold exifFixEV
      simp only [hfind]
    exact get_exif_info_ok_of floatRepr baseline ifd endianBig _ hstep hub1
  | some v =>
    have hfindB : exifFind (exifBuild baseline ifd) "EV" = some v := by
      rw [← exifFix_find_other (exifBuild baseline ifd) "Exposure Time" "EV"
        (formatExposureTime floatRepr) (by decide)]
      exact hfind
    obtain ⟨v2, hv2⟩ := exifBuild_ev_ok baseline ifd hEV v hfindB
    have hstep : exifFixEV (exifFix (exifBuild baseline ifd) "Exposure Time"
        (formatExposureTime floatRepr))
        = Except.ok (exifSet (exifFix (exifBuild baseline ifd) "Exposure Time"
          (formatExposureTime floatRepr)) "EV" v2) := by
      unfold exifFixEV
      simp only [hfind, hv2]
    have hUCm2 : exifFind (exifSet (exifFix (exifBuild baseline ifd)
        "Exposure Time" (formatExposureTime floatRepr)) "EV" v2)
        "User Comment" = none := by
      rw [exifFind_set_ne _ _ _ _ (by decide)]
      exact hub1
    exact get_exif_info_ok_of floatRepr baseline ifd endianBig _ hstep hUCm2

theorem decodeUserComment_ascii_error (bs : List Nat) (endianBig : Bool)
    (e : String) (henc : ¬ bs.take 8 = unicodeMarker)
    (hdec : asciiDecode (bs.drop 8) = Except.error e) :
    decodeUserComment endianBig [("User Comment", ExifValue.bytes bs)]
      = Except.error e := by
  unfold decodeUserComment
  have hfind : exifFind [("User Comment", ExifValue.bytes bs)] "User Comment"
      = some (ExifValue.bytes bs) := rfl
  rw [hfind]
  simp only [if_neg henc, hdec]

theorem univNewlines_cons_ne (c : Char) (l : List Char) (hc : ¬ c = '\r') :
    univNewlines (c :: l) = c :: univNewlines l := by
  cases l with
  | nil => simp [univNewlines, hc]
  | cons c2 cs => simp [univNewlines, hc]

theorem univNewlines_crlf (l : List Char) :
    univNewlines ('\r' :: '\n' :: l) = '\n' :: univNewlines l := by
  simp [univNewlines]

theorem univNewlines_append_noCR (xs : List Char) (ys : List Char)
    (h : '\r' ∉ xs) : univNewlines (xs ++ ys) = xs ++ univNewlines ys := by
  induction xs with
  | nil => rfl
  | cons c cs ih =>
    have hc : ¬ c = '\r' := fun hx => h (hx ▸ List.mem_cons_self c cs)
    rw [List.cons_append, univNewlines_cons_ne c _ hc,
      ih (fun hx => h (List.mem_cons_of_mem c hx)), List.cons_append]

theorem mem_escapeQuotes (c : Char) (s : List Char)
    (h : c ∈ escapeQuotes s) : c ∈ s ∨ c = '"' := by
  induction s with
  | nil => exact absurd h (List.not_mem_nil c)
  | cons a s ih =>
    by_cases ha : a = '"'
    · simp only [escapeQuotes, if_pos ha] at h
      rcases List.mem_cons.mp h with h1 | h1
      · exact Or.inr h1
      · rcases List.mem_cons.mp h1 with h2 | h2
        · exact Or.inr h2
        · rcases ih h2 with h3 | h3
          · exact Or.inl (List.mem_cons_of_mem a h3)
          · exact Or.inr h3
    · simp only [escapeQuotes, if_neg ha] at h
      rcases List.mem_cons.mp h with h1 | h1
      · exact Or.inl (h1 ▸ List.mem_cons_self a s)
      · rcases ih h1 with h3 | h3
        · exact Or.inl (List.mem_cons_of_mem a h3)
        · exact Or.inr h3

theorem serializeField_noCR (s : List Char) (h : '\r' ∉ s) :
    '\r' ∉ serializeField s := by
  unfold serializeField
  by_cases hq : needsQuote s = true
  · rw [if_pos hq]
    intro hmem
    rcases List.mem_cons.mp hmem with h1 | h1
    · exact absurd h1 (by decide)
    · rcases List.mem_append.mp h1 with h2 | h2
      · rcases mem_escapeQuotes _ _ h2 with h3 | h3
        · exact h h3
        · exact absurd h3 (by decide)
      · rcases List.mem_singleton.mp h2 with h3
        exact absurd h3 (by decide)
  · rw [if_neg hq]
    exact h

theorem parseUnquoted_spec (d : Char) (rest : List Char)
    (hd : d = ',' ∨ d = '\n') :
    ∀ s : List Char, (∀ c ∈ s, ¬ c = ',' ∧ ¬ c = '\n') →
    parseUnquoted (s ++ d :: rest)
      = (s, (if d = ',' then FieldEnd.comma else FieldEnd.newline), rest) := by
  intro s
  induction s with
  | nil =>
    intro _
    rcases hd with h | h <;> subst h <;> simp [parseUnquoted]
  | cons c cs ih =>
    intro hcl
    have hc := hcl c (List.mem_cons_self c cs)
    simp only [List.cons_append, parseUnquoted, if_neg hc.1, if_neg hc.2,
      List.append_eq]
    rw [ih (fun x hx => hcl x (List.mem_cons_of_mem c hx))]

theorem parseQuoted_cons_ne (c : Char) (l : List Char) (hc : ¬ c = '"') :
    parseQuoted (c :: l)
      = (c :: (parseQuoted l).1, (parseQuoted l).2.1, (parseQuoted l).2.2) := by
  cases l with
  | nil => simp [parseQuoted, hc]
  | cons c2 cs => simp [parseQuoted, hc]

theorem parseQuoted_quote_quote (l : List Char) :
    parseQuoted ('"' :: '"' :: l)
      = ('"' :: (parseQuoted l).1, (parseQuoted l).2.1,
         (parseQuoted l).2.2) := by
  simp [parseQuoted]

theorem parseQuoted_quote_ne (d : Char) (l : List Char) (hd : ¬ d = '"') :
    parseQuoted ('"' :: d :: l) = parseUnquoted (d :: l) := by
  simp [parseQuoted, hd]

theorem parseQuoted_escape (d : Char) (rest : List Char)
    (hd : d = ',' ∨ d = '\n') :
    ∀ s : List Char,
    parseQuoted (escapeQuotes s ++ '"' :: d :: rest)
      = (s, (if d = ',' then FieldEnd.comma else FieldEnd.newline), rest) := by
  have hdq : ¬ d = '"' := by
    rcases hd with h | h <;> subst h <;> decide
  intro s
  induction s with
  | nil =>
    rw [show escapeQuotes [] = [] from rfl, List.nil_append,
      parseQuoted_quote_ne d rest hdq]
    rcases hd with h | h <;> subst h <;> simp [parseUnquoted]
  | cons c cs ih =>
    by_cases hc : c = '"'
    · subst hc
      rw [show escapeQuotes ('"' :: cs) = '"' :: '"' :: escapeQuotes cs
        from rfl, List.cons_append, List.cons_append,
        parseQuoted_quote_quote, ih]
    · rw [show escapeQuotes (c :: cs) = c :: escapeQuotes cs by
        simp [escapeQuotes, hc], List.cons_append,
        parseQuoted_cons_ne c _ hc, ih]

theorem parseField_serialized (s : List Char) (d : Char) (rest : List Char)
    (hd : d = ',' ∨ d = '\n') :
    parseField (serializeField s ++ d :: rest)
      = (s, (if d = ',' then FieldEnd.comma else FieldEnd.newline), rest) := by
  have hdq : ¬ d = '"' := by
    rcases hd with h | h <;> subst h <;> decide
  unfold serializeField
  by_cases hq : needsQuote s = true
  · rw [if_pos hq]
    have hassoc : ('"' :: (escapeQuotes s ++ ['"'])) ++ d :: rest
        = '"' :: (escapeQuotes s ++ ('"' :: d :: rest)) := by
      simp
    rw [hassoc]
    simp only [parseField, if_pos rfl]
    exact parseQuoted_escape d rest hd s
  · rw [if_neg hq]
    have hchars : ∀ c ∈ s, ¬ c = ',' ∧ ¬ c = '"' ∧ ¬ c = '\n' := by
      intro c hc
      rw [Bool.not_eq_true] at hq
      unfold needsQuote at hq
      rw [List.any_eq_false] at hq
      have hthis := hq c hc
      simp only [Bool.or_eq_true, decide_eq_true_eq, not_or] at hthis
      exact ⟨hthis.1.1.1, hthis.1.1.2, hthis.1.2⟩
    cases s with
    | nil =>
      simp only [List.nil_append, parseField, if_neg hdq]
      rcases hd with h | h <;> subst h <;> simp [parseUnquoted]
    | cons c cs =>
      have hc := hchars c (List.mem_cons_self c cs)
      simp only [List.cons_append, parseField, if_neg hc.2.1]
      rw [← List.cons_append]
      exact parseUnquoted_spec d rest hd (c :: cs)
        (fun x hx => ⟨(hchars x hx).1, (hchars x hx).2.2⟩)

theorem parseRecordF_row (r : String × String × String) (rest : List Char)
    (n : Nat) :
    parseRecordF (n + 3) (serializeRowLF r ++ rest)
      = ([r.1.data, r.2.1.data, r.2.2.data], some rest) := by
  have hassoc : serializeRowLF r ++ rest
      = serializeField r.1.data ++ ',' ::
          (serializeField r.2.1.data ++ ',' ::
            (serializeField r.2.2.data ++ '\n' :: rest)) := by
    unfold serializeRowLF
    simp
  have h1 : parseField (serializeField r.1.data ++ ',' ::
      (serializeField r.2.1.data ++ ',' ::
        (serializeField r.2.2.data ++ '\n' :: rest)))
      = (r.1.data, FieldEnd.comma,
         serializeField r.2.1.data ++ ',' ::
           (serializeField r.2.2.data ++ '\n' :: rest)) := by
    simpa using parseField_serialized r.1.data ',' _ (Or.inl rfl)
  have h2 : parseField (serializeField r.2.1.data ++ ',' ::
      (serializeField r.2.2.data ++ '\n' :: rest))
      = (r.2.1.data, FieldEnd.comma,
         serializeField r.2.2.data ++ '\n' :: rest) := by
    simpa using parseField_serialized r.2.1.data ',' _ (Or.inl rfl)
  have h3 : parseField (serializeField r.2.2.data ++ '\n' :: rest)
      = (r.2.2.data, FieldEnd.newline, rest) := by
    simpa using parseField_serialized r.2.2.data '\n' _ (Or.inr rfl)
  rw [hassoc]
  show parseRecordF (n + 2 + 1) _ = _
  simp only [parseRecordF, h1]
  show ((r.1.data :: (parseRecordF (n + 1 + 1) _).1, _) :
    List (List Char) × Option (List Char)) = _
  simp only [parseRecordF, h2, h3]

theorem serializeRowLF_length (r : String × String × String) :
    3 ≤ (serializeRowLF r).length := by
  unfold serializeRowLF
  simp only [List.length_append, List.length_cons, List.length_singleton]
  omega

theorem serializeRowLF_head_ne (r : String × String × String)
    (rest : List Char) (c : Char) (cs' : List Char)
    (heq : serializeRowLF r ++ rest = c :: cs') : ¬ c = '\n' := by
  unfold serializeRowLF at heq
  by_cases hq : needsQuote r.1.data = true
  · cases hsf : serializeField r.1.data with
    | nil =>
      unfold serializeField at hsf
      rw [if_pos hq] at hsf
      exact absurd hsf (by simp)
    | cons a tl =>
      have ha : a = '"' := by
        unfold serializeField at hsf
        rw [if_pos hq] at hsf
        exact (List.cons_eq_cons.mp hsf.symm).1
      rw [hsf] at heq
      simp only [List.cons_append, List.append_assoc] at heq
      have := (List.cons_eq_cons.mp heq).1
      rw [← this, ha]
      decide
  · cases hsf : serializeField r.1.data with
    | nil =>
      rw [hsf] at heq
      simp only [List.nil_append, List.cons_append, List.append_assoc,
        List.singleton_append] at heq
      have := (List.cons_eq_cons.mp heq).1
      rw [← this]
      decide
    | cons a tl =>
      have hmem : a ∈ r.1.data := by
        unfold serializeField at hsf
        rw [if_neg hq] at hsf
        rw [hsf]
        exact List.mem_cons_self a tl
      have hno : ¬ a = '\n' := by
        rw [Bool.not_eq_true] at hq
        unfold needsQuote at hq
        rw [List.any_eq_false] at hq
        have := hq a hmem
        simp only [Bool.or_eq_true, decide_eq_true_eq, not_or] at this
        exact this.1.2
      rw [hsf] at heq
      simp only [List.cons_append, List.append_assoc] at heq
      have := (List.cons_eq_cons.mp heq).1
      rw [← this]
      exact hno

theorem parseRecordsF_row_step (n : Nat) (r : String × String × String)
    (rest : List Char) :
    parseRecordsF (n + 1) (serializeRowLF r ++ rest)
      = [r.1.data, r.2.1.data, r.2.2.data] :: parseRecordsF n rest := by
  cases hcs : serializeRowLF r ++ rest with
  | nil =>
    exfalso
    have h3 := serializeRowLF_length r
    have : (serializeRowLF r ++ rest).length = 0 := by rw [hcs]; rfl
    rw [List.length_append] at this
    omega
  | cons c cs' =>
    have hcne : ¬ c = '\n' := serializeRowLF_head_ne r rest c cs' hcs
    have hlen : 2 ≤ cs'.length := by
      have h3 := serializeRowLF_length r
      have : (serializeRowLF r ++ rest).length = cs'.length + 1 := by
        rw [hcs]; rfl
      rw [List.length_append] at this
      omega
    simp only [parseRecordsF, if_neg hcne]
    rw [← hcs]
    obtain ⟨m, hm⟩ : ∃ m, cs'.length + 2 = m + 3 := ⟨cs'.length - 1, by omega⟩
    rw [hm, parseRecordF_row]

theorem serializeTableLF_length (rows : List (String × String × String)) :
    rows.length ≤ (serializeTableLF rows).length := by
  induction rows with
  | nil => simp [serializeTableLF]
  | cons r rows ih =>
    have hstep : serializeTableLF (r :: rows)
        = serializeRowLF r ++ serializeTableLF rows := by
      unfold serializeTableLF
      simp
    rw [hstep, List.length_append, List.length_cons]
    have := serializeRowLF_length r
    omega

theorem parseRecordsF_table (rows : List (String × String × String)) :
    ∀ n : Nat, rows.length ≤ n →
    parseRecordsF n (serializeTableLF rows)
      = rows.map (fun r => [r.1.data, r.2.1.data, r.2.2.data]) := by
  induction rows with
  | nil =>
    intro n _
    cases n with
    | zero => rfl
    | succ m => rfl
  | cons r rows ih =>
    intro n hn
    obtain ⟨m, rfl⟩ : ∃ m, n = m + 1 :=
      ⟨n - 1, by simp only [List.length_cons] at hn; omega⟩
    have hstep : serializeTableLF (r :: rows)
        = serializeRowLF r ++ serializeTableLF rows := by
      unfold serializeTableLF
      simp
    rw [hstep, parseRecordsF_row_step,
      ih m (by simp only [List.length_cons] at hn; omega), List.map_cons]

theorem parseCsv_tableLF (rows : List (String × String × String)) :
    parseCsv (serializeTableLF rows)
      = rows.map (fun r => [r.1, r.2.1, r.2.2]) := by
  unfold parseCsv
  rw [parseRecordsF_table rows _
    (le_trans (serializeTableLF_length rows) (Nat.le_succ _)), List.map_map]
  apply List.map_congr_left
  intro r _
  rfl

theorem univNewlines_serializeTable (rows : List (String × String × String))
    (hcr : ∀ r ∈ rows, '\r' ∉ r.1.data ∧ '\r' ∉ r.2.1.data ∧
      '\r' ∉ r.2.2.data) :
    univNewlines (serializeTable rows) = serializeTableLF rows := by
  induction rows with
  | nil => rfl
  | cons r rows ih =>
    have hr := hcr r (List.mem_cons_self r rows)
    have hbody : '\r' ∉ (serializeField r.1.data ++ [','] ++
        serializeField r.2.1.data ++ [','] ++ serializeField r.2.2.data) := by
      intro hmem
      simp only [List.mem_append, List.mem_singleton] at hmem
      rcases hmem with ((((h1 | h2) | h3) | h4) | h5)
      · exact serializeField_noCR _ hr.1 h1
      · exact absurd h2 (by decide)
      · exact serializeField_noCR _ hr.2.1 h3
      · exact absurd h4 (by decide)
      · exact serializeField_noCR _ hr.2.2 h5
    have hstep : serializeTable (r :: rows)
        = serializeRow r ++ serializeTable rows := by
      unfold serializeTable
      simp
    have hassoc : serializeRow r ++ serializeTable rows
        = (serializeField r.1.data ++ [','] ++ serializeField r.2.1.data ++
            [','] ++ serializeField r.2.2.data) ++
          ('\r' :: '\n' :: serializeTable rows) := by
      unfold serializeRow
      simp
    rw [hstep, hassoc, univNewlines_append_noCR _ _ hbody, univNewlines_crlf,
      ih (fun x hx => hcr x (List.mem_cons_of_mem r hx))]
    have hstepLF : serializeTableLF (r :: rows)
        = serializeRowLF r ++ serializeTableLF rows := by
      unfold serializeTableLF
      simp
    rw [hstepLF]
    unfold serializeRowLF
    simp

theorem basename_no_slash (k : String) (h : ∀ c ∈ k.data, ¬ c = '/') :
    basename k = k := by
  have haux : ∀ (l : List Char) (acc : List Char), (∀ c ∈ l, ¬ c = '/') →
      l.foldl (fun acc c => if c = '/' then [] else acc ++ [c]) acc
        = acc ++ l := by
    intro l
    induction l with
    | nil => intro acc _; simp
    | cons c cs ih =>
      intro acc hl
      simp only [List.foldl_cons, if_neg (hl c (List.mem_cons_self c cs))]
      rw [ih _ (fun x hx => hl x (List.mem_cons_of_mem c hx))]
      simp
  unfold basename
  rw [haux k.data [] h, List.nil_append]

theorem dict_set_append (md : Store) (k : String) (v : MetadataRecord)
    (h : ∀ p ∈ md, ¬ p.1 = k) : dict_set md k v = md ++ [(k, v)] := by
  unfold dict_set
  have hany : md.any (fun p => p.1 == k) = false := by
    rw [List.any_eq_false]
    intro x hx
    simp only [beq_iff_eq]
    exact h x hx
  rw [hany]
  simp

theorem fold_restore :
    ∀ (md : Store) (acc : Store),
      (md.map Prod.fst).Nodup →
      (∀ p ∈ md, ∀ q ∈ acc, ¬ p.1 = q.1) →
      (∀ p ∈ md, basename p.1 = p.1) →
      md.foldl
          (fun a p => dict_set a (basename p.1) ⟨p.2.rating, p.2.notes⟩) acc
        = acc ++ md := by
  intro md
  induction md with
  | nil => intro acc _ _ _; simp
  | cons p md ih =>
    intro acc hnd hdisj hbase
    simp only [List.foldl_cons]
    rw [hbase p (List.mem_cons_self p md),
      dict_set_append acc p.1 ⟨p.2.rating, p.2.notes⟩
        (fun q hq hcontra =>
          hdisj p (List.mem_cons_self p md) q hq hcontra.symm)]
    have hpeta : ((p.1, (⟨p.2.rating, p.2.notes⟩ : MetadataRecord)) :
        String × MetadataRecord) = p := rfl
    rw [hpeta]
    have hhead : ∀ p' ∈ md, ¬ p'.1 = p.1 := by
      intro p' hp' hcontra
      rw [List.map_cons, List.nodup_cons] at hnd
      exact hnd.1 (hcontra ▸ List.mem_map_of_mem Prod.fst hp')
    rw [ih (acc ++ [p])
      (by rw [List.map_cons, List.nodup_cons] at hnd; exact hnd.2)
      (by
        intro p' hp' q hq
        rcases List.mem_append.mp hq with h1 | h1
        · exact hdisj p' (List.mem_cons_of_mem p hp') q h1
        · rw [List.mem_singleton.mp h1]
          exact hhead p' hp')
      (fun p' hp' => hbase p' (List.mem_cons_of_mem p hp'))]
    simp

/-! ## Claim theorems -/

/-- C1: for every folder state, merging newly scanned candidates into the
image list adds only paths that are not already known, not on the skip list,
and still present on the filesystem at merge time; consequently the extended
image list (with the new batch appended in any order the shuffle produced)
has no duplicate path and shares no path with the skip list. -/
theorem C1_merge_invariant (fsExists : String → Bool)
    (paths images skiplist shuffled : List String)
    (hpaths : paths.Nodup) (himages : images.Nodup)
    (hdisj : ∀ p ∈ images, p ∉ skiplist)
    (hperm : shuffled.Perm (merge fsExists paths images skiplist)) :
    (∀ p ∈ merge fsExists paths images skiplist,
        p ∉ images ∧ p ∉ skiplist ∧ fsExists p = true)
    ∧ (images ++ shuffled).Nodup
    ∧ ∀ p ∈ images ++ shuffled, p ∉ skiplist := by
  have hmer : ∀ p ∈ merge fsExists paths images skiplist,
      p ∉ images ∧ p ∉ skiplist ∧ fsExists p = true := by
    intro p hp
    exact (mem_merge.mp hp).2
  refine ⟨hmer, ?_, ?_⟩
  · rw [List.nodup_append]
    refine ⟨himages, hperm.nodup_iff.mpr (hpaths.filter _), ?_⟩
    intro p hp hp2
    exact ((hmer p (hperm.mem_iff.mp hp2)).1 hp).elim
  · intro p hp
    rcases List.mem_append.mp hp with h | h
    · exact hdisj p h
    · exact (hmer p (hperm.mem_iff.mp h)).2.1

/-- Witness for C1 at a concrete folder state. -/
theorem C1_merge_invariant_witness :
    (["d/a.jpg", "d/b.jpg"] : List String).Nodup
    ∧ (["d/b.jpg", "d/old.jpg"] : List String).Nodup
    ∧ (∀ p ∈ (["d/b.jpg", "d/old.jpg"] : List String), p ∉ (["d/bad.jpg"] : List String))
    ∧ (merge (fun _ => true) ["d/a.jpg", "d/b.jpg"] ["d/b.jpg", "d/old.jpg"] ["d/bad.jpg"]).Perm
        (merge (fun _ => true) ["d/a.jpg", "d/b.jpg"] ["d/b.jpg", "d/old.jpg"] ["d/bad.jpg"])
    ∧ ((∀ p ∈ merge (fun _ => true) ["d/a.jpg", "d/b.jpg"] ["d/b.jpg", "d/old.jpg"] ["d/bad.jpg"],
          p ∉ (["d/b.jpg", "d/old.jpg"] : List String)
          ∧ p ∉ (["d/bad.jpg"] : List String) ∧ (fun (_ : String) => true) p = true)
        ∧ (["d/b.jpg", "d/old.jpg"] ++
            merge (fun _ => true) ["d/a.jpg", "d/b.jpg"] ["d/b.jpg", "d/old.jpg"] ["d/bad.jpg"]).Nodup
        ∧ ∀ p ∈ ["d/b.jpg", "d/old.jpg"] ++
            merge (fun _ => true) ["d/a.jpg", "d/b.jpg"] ["d/b.jpg", "d/old.jpg"] ["d/bad.jpg"],
            p ∉ (["d/bad.jpg"] : List String)) := by
  refine ⟨by decide, by decide, by decide, List.Perm.refl _, ?_⟩
  exact C1_merge_invariant (fun _ => true) ["d/a.jpg", "d/b.jpg"]
    ["d/b.jpg", "d/old.jpg"] ["d/bad.jpg"] _ (by decide) (by decide) (by decide)
    (List.Perm.refl _)

/-- C2: the claim fails at the Empty folder state.  `goto_image(0)` there --
reachable by pressing Home before any image has appeared -- is not a no-op:
`index % len(self.images)` on line 126 divides by zero and the call raises
ZeroDivisionError, contradicting both the claim and the docstring of
`goto_image` (`If there are no images, do nothing`).  On a non-empty list
the resulting index is `i mod length` as claimed, shown here at a concrete
call. -/
theorem C2_goto_empty_faults :
    (goto_image (fun _ => true)
        ⟨none, [], [], [], none, false, 40, 40, false, false, true, false⟩
        (some 0) 1) =
      (⟨none, [], [], [], none, false, 40, 40, false, false, true, false⟩,
        some "ZeroDivisionError")
    ∧ (goto_image (fun _ => true)
        ⟨some 0, ["a.jpg", "b.jpg"], [], [], none, false, 40, 40, false,
          false, true, false⟩
        (some 5) 1).1.image_index = some 1
    ∧ (5 : Int) % 2 = 1 := by
  refine ⟨by decide, by decide, by decide⟩

/-- C3: the claim fails at the Empty state (no images known, index `None`).
None of the six entry points checks for emptiness: `first` and `last` raise
ZeroDivisionError inside `goto_image` (despite its docstring), `next` and
`previous` raise TypeError on `None ± 1` before even reaching `goto_image`,
and `rate` and `annotate` raise TypeError on `self.images[None]`.  Each call
is a fault, not a no-op. -/
theorem C3_empty_entry_points_fault :
    (on_right (fun _ => true)
        ⟨none, [], [], [], none, false, 40, 40, false, false, true, false⟩).2
      = some "TypeError"
    ∧ (on_left (fun _ => true)
        ⟨none, [], [], [], none, false, 40, 40, false, false, true, false⟩).2
      = some "TypeError"
    ∧ (on_home (fun _ => true)
        ⟨none, [], [], [], none, false, 40, 40, false, false, true, false⟩).2
      = some "ZeroDivisionError"
    ∧ (on_end (fun _ => true)
        ⟨none, [], [], [], none, false, 40, 40, false, false, true, false⟩).2
      = some "ZeroDivisionError"
    ∧ (on_rating
        ⟨none, [], [], [], none, false, 40, 40, false, false, true, false⟩
        "5").2 = some "TypeError"
    ∧ (on_text
        ⟨none, [], [], [], none, false, 40, 40, false, false, true, false⟩
        (some "note")).2 = some "TypeError" := by
  refine ⟨by decide, by decide, by decide, by decide, by decide, by decide⟩

/-- C4, counterexample to the claim as stated: with a single undecodable
image the cascade does append the path to the skip list and remove it from
the image list, but when the list becomes empty the retry at the unchanged
index raises an uncaught IndexError on `self.images[self.image_index]` --
the cascade does not terminate without a fault. -/
theorem C4_cascade_fault_counterexample :
    load_image (fun _ => false)
        ⟨some 0, ["a.jpg"], [], [], none, false, 40, 40, false, false, true,
          false⟩
      = (⟨some 0, [], ["a.jpg"], [], none, false, 40, 40, false, false, true,
          false⟩,
         some "IndexError") := by decide

/-- C4 (amended): when every entry from the current index onward fails to
decode, the cascade appends each failing path to the skip list in order,
removes each from the image list, and retries at the unchanged index; it
ends with the uncaught IndexError of the final subscript -- in particular
when the image list becomes empty nothing is displayed and the error
propagates instead of the call returning cleanly. -/
theorem C4_cascade_spec (dec : String → Bool) (st : ViewerState) (idx : Nat)
    (hidx : st.image_index = some (idx : Int)) (hle : idx ≤ st.images.length)
    (hfail : ∀ p ∈ st.images.drop idx, dec p = false) :
    load_image dec st =
      ({ st with images := st.images.take idx,
                 skiplist := st.skiplist ++ st.images.drop idx },
       some "IndexError") := by
  have hdw : (st.images.drop idx).dropWhile (fun p => !dec p) = [] := by
    rw [List.dropWhile_eq_nil_iff]
    intro x hx
    simp [hfail x hx]
  have htw : (st.images.drop idx).takeWhile (fun p => !dec p)
      = st.images.drop idx := by
    rw [List.takeWhile_eq_self_iff]
    intro x hx
    simp [hfail x hx]
  unfold load_image
  rw [hidx]
  simp only [load_image_loop_spec dec (st.images.length + 1) st.images
    st.skiplist idx hle (by omega), hdw, htw]
  simp

/-- Witness for the amended C4 at a concrete two-image folder in which both
entries are undecodable. -/
theorem C4_cascade_spec_witness :
    (⟨some 0, ["a.jpg", "b.jpg"], ["old.jpg"], [], none, false, 40, 40,
        false, false, true, false⟩ : ViewerState).image_index
      = some ((0 : Nat) : Int)
    ∧ (0 : Nat) ≤ (["a.jpg", "b.jpg"] : List String).length
    ∧ (∀ p ∈ (["a.jpg", "b.jpg"] : List String).drop 0,
        (fun (_ : String) => false) p = false)
    ∧ load_image (fun _ => false)
        ⟨some 0, ["a.jpg", "b.jpg"], ["old.jpg"], [], none, false, 40, 40,
          false, false, true, false⟩
      = (⟨some 0, [], ["old.jpg", "a.jpg", "b.jpg"], [], none, false, 40, 40,
          false, false, true, false⟩,
         some "IndexError") :=
  ⟨rfl, by decide, by decide,
    C4_cascade_spec (fun _ => false)
      ⟨some 0, ["a.jpg", "b.jpg"], ["old.jpg"], [], none, false, 40, 40,
        false, false, true, false⟩ 0 rfl (by decide) (by decide)⟩

/-- C5, counterexample to the claim as stated: a note containing a carriage
return is written verbatim inside a quoted field, but `load_metadata` opens
the table in plain text mode, so universal-newline translation rewrites the
CR to LF before the csv parse and the loaded note differs from the saved
one. -/
theorem C5_carriage_return_counterexample :
    save_metadata [("x.jpg", ⟨"5", "a\rb"⟩)] = some "x.jpg,5,\"a\rb\"\r\n"
    ∧ load_metadata "x.jpg,5,\"a\rb\"\r\n"
        = Except.ok [("x.jpg", ⟨"5", "a\nb"⟩)]
    ∧ [("x.jpg", (⟨"5", "a\nb"⟩ : MetadataRecord))]
        ≠ [("x.jpg", (⟨"5", "a\rb"⟩ : MetadataRecord))] := by
  refine ⟨by decide, rfl, by decide⟩

/-- C7: the claim fails because line 579 calls `random.shuffle(new_images)`
unconditionally -- the `randomise_on_load` flag stored on line 67 is never
consulted.  At a state with the randomize option off and a shuffle outcome
that reverses the two-element batch (a permutation `random.shuffle` can
produce), the appended batch is not in directory-listing order. -/
theorem C7_unconditional_shuffle :
    (updater (fun _ => true) List.reverse (fun _ => true)
        ["a.jpg", "b.jpg"]
        ⟨none, [], [], [], none, false, 40, 40, false, false, true,
          false⟩).1.images = ["b.jpg", "a.jpg"]
    ∧ (⟨none, [], [], [], none, false, 40, 40, false, false, true, false⟩ :
        ViewerState).randomise_on_load = false
    ∧ (["b.jpg", "a.jpg"] : List String) ≠ ["a.jpg", "b.jpg"]
    ∧ (List.reverse (["a.jpg", "b.jpg"] : List String)).Perm
        ["a.jpg", "b.jpg"] := by
  refine ⟨by decide, by decide, by decide, List.reverse_perm _⟩

/-- C8, counterexample to the claim as stated: with the sort-on-load option
configured, one previously known image `b.jpg` and one new image `a.jpg`
(shuffle outcome: identity), the merged batch is `[a.jpg]` whose first
newly-appended entry is `a.jpg`; but after the whole-list sort the index --
set to the old length, 1 -- refers to `b.jpg`, not to the first
newly-appended entry. -/
theorem C8_sorted_index_counterexample :
    merge (fun _ => true) ["a.jpg", "b.jpg"] ["b.jpg"] [] = ["a.jpg"]
    ∧ (updater (fun _ => true) id (fun _ => true) ["a.jpg", "b.jpg"]
        ⟨some 0, ["b.jpg"], [], [], none, false, 40, 40, true, false, true,
          false⟩).1.image_index = some 1
    ∧ (updater (fun _ => true) id (fun _ => true) ["a.jpg", "b.jpg"]
        ⟨some 0, ["b.jpg"], [], [], none, false, 40, 40, true, false, true,
          false⟩).1.images = ["a.jpg", "b.jpg"]
    ∧ (["a.jpg", "b.jpg"] : List String).get? 1 = some "b.jpg"
    ∧ ("b.jpg" : String) ≠ "a.jpg" := by
  refine ⟨by decide, by decide, by decide, by decide, by decide⟩

/-- C8 (amended): on a tick with new images the index is set to the count of
previously known entries, the call returns without a fault, the slideshow
flag is reset to off and the countdown is reset to full; when sort-on-load
is off that index refers to the first entry of the appended (shuffled)
batch.  (When sort-on-load is configured the whole list is re-sorted and the
unchanged index may refer to a different entry -- see the counterexample.) -/
theorem C8_new_batch (dec : String → Bool) (shuffle : List String → List String)
    (fsExists : String → Bool) (listing : List String) (st : ViewerState)
    (hupd : st.update = true) (hres : st.rescan = false)
    (hdec : ∀ p, dec p = true)
    (hnew : merge fsExists listing st.images st.skiplist ≠ [])
    (hlen : (shuffle (merge fsExists listing st.images st.skiplist)).length
      = (merge fsExists listing st.images st.skiplist).length) :
    (updater dec shuffle fsExists listing st).1.image_index
        = some (st.images.length : Int)
    ∧ (updater dec shuffle fsExists listing st).2 = none
    ∧ (updater dec shuffle fsExists listing st).1.slideshow = false
    ∧ (updater dec shuffle fsExists listing st).1.slideshow_next
        = st.slideshow_ticks
    ∧ (st.sort_on_load = false →
        (updater dec shuffle fsExists listing st).1.images
          = st.images ++ shuffle (merge fsExists listing st.images st.skiplist)
        ∧ (updater dec shuffle fsExists listing st).1.images.get?
            st.images.length
          = (shuffle (merge fsExists listing st.images st.skiplist)).head?) := by
  set nm := merge fsExists listing st.images st.skiplist with hnm
  set sh := shuffle nm with hsh
  have hshpos : 0 < sh.length := by
    rw [hlen]
    exact List.length_pos.mpr hnew
  set st1 : ViewerState := { st with
    image_index := some (st.images.length : Int),
    images := st.images ++ sh } with hst1
  set st2 : ViewerState :=
    (if st1.sort_on_load then { st1 with images := pySort st1.images }
     else st1) with hst2
  have h2idx : st2.image_index = some (st.images.length : Int) := by
    rw [hst2]
    split <;> rfl
  have h2len : st2.images.length = st.images.length + sh.length := by
    rw [hst2]
    split
    · show (pySort (st.images ++ sh)).length = _
      rw [pySort_length, List.length_append]
    · show (st.images ++ sh).length = _
      rw [List.length_append]
  have hload : load_image dec st2 = (st2, none) := by
    refine load_image_ok dec st2 _ h2idx (Int.natCast_nonneg _) ?_ hdec
    rw [h2len]
    push_cast
    omega
  have hrun : updater dec shuffle fsExists listing st
      = (({ st2 with
            slideshow := false,
            slideshow_next := st2.slideshow_ticks } : ViewerState), none) := by
    unfold updater
    rw [hupd, hres]
    simp only [Bool.true_eq_false, if_false, Bool.false_eq_true, ← hnm]
    rw [if_neg hnew, ← hsh, ← hst1, ← hst2, hload]
    exact slideshow_step_off dec _ rfl
  rw [hrun]
  refine ⟨h2idx, rfl, rfl, ?_, ?_⟩
  · show st2.slideshow_ticks = st.slideshow_ticks
    rw [hst2]
    split <;> rfl
  · intro hsort
    have hs2 : st2 = st1 := by
      rw [hst2, hst1]
      simp [hsort]
    constructor
    · show st2.images = st.images ++ sh
      rw [hs2]
    · show st2.images.get? st.images.length = sh.head?
      rw [hs2]
      show (st.images ++ sh).get? st.images.length = sh.head?
      rw [List.get?_append_right (le_refl _), Nat.sub_self]
      cases sh <;> rfl

/-- Witness for the amended C8 at a concrete tick bringing two new images
into an empty folder state with the slideshow running. -/
theorem C8_new_batch_witness :
    ((⟨none, [], [], [], none, true, 40, 17, false, false, true, false⟩ :
        ViewerState).update = true)
    ∧ ((⟨none, [], [], [], none, true, 40, 17, false, false, true, false⟩ :
        ViewerState).rescan = false)
    ∧ (∀ p : String, (fun (_ : String) => true) p = true)
    ∧ merge (fun _ => true) ["b.jpg", "a.jpg"]
        (⟨none, [], [], [], none, true, 40, 17, false, false, true, false⟩ :
          ViewerState).images
        (⟨none, [], [], [], none, true, 40, 17, false, false, true, false⟩ :
          ViewerState).skiplist ≠ []
    ∧ (updater (fun _ => true) id (fun _ => true) ["b.jpg", "a.jpg"]
        ⟨none, [], [], [], none, true, 40, 17, false, false, true,
          false⟩).1.image_index = some 0
    ∧ (updater (fun _ => true) id (fun _ => true) ["b.jpg", "a.jpg"]
        ⟨none, [], [], [], none, true, 40, 17, false, false, true,
          false⟩).2 = none
    ∧ (updater (fun _ => true) id (fun _ => true) ["b.jpg", "a.jpg"]
        ⟨none, [], [], [], none, true, 40, 17, false, false, true,
          false⟩).1.slideshow = false
    ∧ (updater (fun _ => true) id (fun _ => true) ["b.jpg", "a.jpg"]
        ⟨none, [], [], [], none, true, 40, 17, false, false, true,
          false⟩).1.slideshow_next = 40
    ∧ (updater (fun _ => true) id (fun _ => true) ["b.jpg", "a.jpg"]
        ⟨none, [], [], [], none, true, 40, 17, false, false, true,
          false⟩).1.images = ["b.jpg", "a.jpg"]
    ∧ (updater (fun _ => true) id (fun _ => true) ["b.jpg", "a.jpg"]
        ⟨none, [], [], [], none, true, 40, 17, false, false, true,
          false⟩).1.images.get? 0 = some "b.jpg" := by
  have h := C8_new_batch (fun _ => true) id (fun _ => true) ["b.jpg", "a.jpg"]
    ⟨none, [], [], [], none, true, 40, 17, false, false, true, false⟩
    rfl rfl (fun _ => rfl) (by decide) rfl
  refine ⟨rfl, rfl, fun _ => rfl, by decide, h.1, h.2.1, h.2.2.1, h.2.2.2.1,
    (h.2.2.2.2 rfl).1, ?_⟩
  rw [(h.2.2.2.2 rfl).1]
  rfl

/-- C9, counterexample to the claim as stated: a UserComment whose payload
is not valid in its selected encoding (an ASCII-tagged payload containing
byte 255) makes the whole extraction raise UnicodeDecodeError -- nothing
catches it, the offending tag is not omitted, and the other tags (here a
well-formed ISO tag) are not returned either.  The rendering oracle is
irrelevant to the outcome (no rational is rendered on this input; the
general statement in the no-handler theorem quantifies over it), so it is
instantiated with a dummy. -/
theorem C9_decode_error_counterexample :
    get_exif_info (fun _ _ => "") []
        [(34855, ExifValue.intv 200),
         (37510, ExifValue.bytes [65, 83, 67, 73, 73, 0, 0, 0, 255])] false
      = Except.error "UnicodeDecodeError" := rfl

/-- C10: metadata records are resolved solely by basename.  Rating a path
stores the record under its basename, so any path with the same basename --
possible under a recursive scan -- reads the very same record back, and the
same holds for annotating; and when the loaded table contains several rows
normalising to the same basename, the dict assignment of the row loop keeps
only the last rows values (the reversed-list search below finds the last
matching row). -/
theorem C10_basename_keying :
    (∀ (md : Store) (p q d : String), basename p = basename q →
      rating_for (dict_set_rating md (basename p) d) (basename q) = d)
    ∧ (∀ (md : Store) (p q t : String), basename p = basename q →
      (dict_find (dict_set_notes md (basename p) t) (basename q)).map
          MetadataRecord.notes = some t)
    ∧ (∀ (rows : List (String × String × String)) (key : String),
      load_metadata_rows (rows.map (fun r => [r.1, r.2.1, r.2.2]))
          = Except.ok (rows.foldl
              (fun md r => dict_set md (basename r.1) ⟨r.2.1, r.2.2⟩) [])
      ∧ dict_find
            (rows.foldl
              (fun md r => dict_set md (basename r.1) ⟨r.2.1, r.2.2⟩) []) key
          = (rows.reverse.find? (fun r => basename r.1 == key)).map
              (fun r => (⟨r.2.1, r.2.2⟩ : MetadataRecord))) := by
  refine ⟨?_, ?_, ?_⟩
  · intro md p q d hbase
    rw [hbase]
    unfold dict_set_rating rating_for
    cases hf : dict_find md (basename q) <;>
      simp [dict_find_dict_set]
  · intro md p q t hbase
    rw [hbase]
    unfold dict_set_notes
    cases hf : dict_find md (basename q) <;>
      simp [dict_find_dict_set]
  · intro rows key
    constructor
    · unfold load_metadata_rows
      exact load_metadata_rows_aux rows []
    · rw [dict_find_load_fold]
      cases hfind : rows.reverse.find? (fun r => basename r.1 == key) with
      | none => simp [dict_find]
      | some r => simp

/-- Witness for C10: two paths in different directories share the basename
`x.jpg`; rating through the first and annotating through the second touch
one record; a loaded table with two rows normalising to `x.jpg` keeps the
second rows values. -/
theorem C10_basename_keying_witness :
    basename "a/x.jpg" = basename "b/x.jpg"
    ∧ rating_for
        (dict_set_rating [("y.jpg", ⟨"3", "old"⟩)] (basename "a/x.jpg") "7")
        (basename "b/x.jpg") = "7"
    ∧ (dict_find
        (dict_set_notes [("y.jpg", ⟨"3", "old"⟩)] (basename "a/x.jpg") "hello")
        (basename "b/x.jpg")).map MetadataRecord.notes = some "hello"
    ∧ load_metadata_rows
        ([("a/x.jpg", "3", "first"), ("b/x.jpg", "9", "second")].map
          (fun r => [r.1, r.2.1, r.2.2]))
        = Except.ok
            ([("a/x.jpg", "3", "first"), ("b/x.jpg", "9", "second")].foldl
              (fun md r => dict_set md (basename r.1) ⟨r.2.1, r.2.2⟩) [])
    ∧ dict_find
        ([("a/x.jpg", "3", "first"), ("b/x.jpg", "9", "second")].foldl
          (fun md r => dict_set md (basename r.1) ⟨r.2.1, r.2.2⟩) []) "x.jpg"
        = some ⟨"9", "second"⟩ := by
  have h := C10_basename_keying
  refine ⟨by decide, h.1 [("y.jpg", ⟨"3", "old"⟩)] "a/x.jpg" "b/x.jpg" "7"
    (by decide), h.2.1 [("y.jpg", ⟨"3", "old"⟩)] "a/x.jpg" "b/x.jpg" "hello"
    (by decide),
    (h.2.2 [("a/x.jpg", "3", "first"), ("b/x.jpg", "9", "second")] "x.jpg").1,
    ?_⟩
  rw [(h.2.2 [("a/x.jpg", "3", "first"), ("b/x.jpg", "9", "second")] "x.jpg").2]
  decide

/-- C6: navigation with an active rating filter.  The resulting index is
always in range; if at least one entry rates at least the filter (in Python,
`rating >= filter`, i.e. not `rating < filter`), the entry at the resulting
index rates at least the filter; if no entry does, the loop steps exactly
`len(images)` times by `delta` and lands back on the original wrapped index
`i mod length`. -/
theorem C6_filter_navigation (dec : String → Bool) (st : ViewerState)
    (i delta : Int) (f : String)
    (hne : st.images ≠ []) (hf : st.filter = some f) (hf0 : f ≠ "")
    (hdelta : delta = 1 ∨ delta = -1) :
    ∃ idx : Int,
      (goto_image dec st (some i) delta).1.image_index = some idx
      ∧ 0 ≤ idx ∧ idx < st.images.length
      ∧ ((∃ k : Nat, k < st.images.length ∧
            pyStrLt (rating_for st.metadata
              (basename (st.images.getD k ""))) f = false) →
          pyStrLt (rating_for st.metadata
            (basename (st.images.getD idx.toNat ""))) f = false)
      ∧ ((∀ k : Nat, k < st.images.length →
            pyStrLt (rating_for st.metadata
              (basename (st.images.getD k ""))) f = true) →
          idx = i % (st.images.length : Int)) := by
  have hlen : 0 < st.images.length := List.length_pos.mpr hne
  have hL0 : ¬ st.images.length = 0 := by omega
  have hbeq : (f == "") = false := beq_eq_false_iff_ne.mpr hf0
  have hact : filter_active st.filter = true := by
    rw [hf]
    simp [filter_active, hbeq]
  have hi0 : 0 ≤ i % (st.images.length : Int) := Int.emod_nonneg _ (by omega)
  have hi1 : i % (st.images.length : Int) < st.images.length :=
    Int.emod_lt_of_pos _ (by exact_mod_cast hlen)
  have hgoto : goto_image dec st (some i) delta
      = load_image dec { st with
          image_index := some (filter_loop st.images st.metadata f delta
            st.images.length (i % (st.images.length : Int))) } := by
    have hact2 : filter_active (some f) = true := by
      simp [filter_active, hbeq]
    simp only [goto_image, if_neg hL0, hf, Option.getD_some, hact2, if_true]
  refine ⟨filter_loop st.images st.metadata f delta st.images.length
    (i % (st.images.length : Int)), ?_, ?_, ?_, ?_, ?_⟩
  · rw [hgoto, load_image_image_index]
  · exact (filter_loop_range _ _ _ _ hlen _ _ hi0 hi1).1
  · exact (filter_loop_range _ _ _ _ hlen _ _ hi0 hi1).2
  · rintro ⟨k, hk, hq⟩
    obtain ⟨m, hm, hmk⟩ :=
      index_reachable st.images.length hlen _ hi0 hi1 k hk delta hdelta
    apply filter_loop_reaches st.images st.metadata f delta hlen _ _ hi0 hi1
    refine ⟨m, hm, ?_⟩
    rw [hmk]
    simpa using hq
  · intro hno
    rw [filter_loop_no_match st.images st.metadata f delta hlen hno _ _
      hi0 hi1]
    rw [Int.add_mul_emod_self_left, Int.emod_emod_of_dvd _ dvd_rfl]

/-- Witness for C6: three images, the middle one rated 7, filter 5, forward
navigation from wrapped target 0 must land on an index whose rating beats
the filter. -/
theorem C6_filter_navigation_witness :
    (["d/x.jpg", "d/y.jpg", "d/z.jpg"] : List String) ≠ []
    ∧ ((⟨some 0, ["d/x.jpg", "d/y.jpg", "d/z.jpg"], [], [("y.jpg", ⟨"7", ""⟩)],
        some "5", false, 40, 40, false, false, true, false⟩ :
        ViewerState).filter = some "5")
    ∧ ("5" : String) ≠ ""
    ∧ ((1 : Int) = 1 ∨ (1 : Int) = -1)
    ∧ (∃ idx : Int,
        (goto_image (fun _ => true)
          ⟨some 0, ["d/x.jpg", "d/y.jpg", "d/z.jpg"], [],
            [("y.jpg", ⟨"7", ""⟩)], some "5", false, 40, 40, false, false,
            true, false⟩ (some 0) 1).1.image_index = some idx
        ∧ 0 ≤ idx
        ∧ idx < (["d/x.jpg", "d/y.jpg", "d/z.jpg"] : List String).length
        ∧ ((∃ k : Nat,
              k < (["d/x.jpg", "d/y.jpg", "d/z.jpg"] : List String).length ∧
              pyStrLt (rating_for [("y.jpg", ⟨"7", ""⟩)]
                (basename ((["d/x.jpg", "d/y.jpg", "d/z.jpg"] :
                  List String).getD k ""))) "5" = false) →
            pyStrLt (rating_for [("y.jpg", ⟨"7", ""⟩)]
              (basename ((["d/x.jpg", "d/y.jpg", "d/z.jpg"] :
                List String).getD idx.toNat ""))) "5" = false)
        ∧ ((∀ k : Nat,
              k < (["d/x.jpg", "d/y.jpg", "d/z.jpg"] : List String).length →
              pyStrLt (rating_for [("y.jpg", ⟨"7", ""⟩)]
                (basename ((["d/x.jpg", "d/y.jpg", "d/z.jpg"] :
                  List String).getD k ""))) "5" = true) →
            idx = (0 : Int) %
              (((["d/x.jpg", "d/y.jpg", "d/z.jpg"] : List String).length :
                Int)))) :=
  ⟨by decide, rfl, by decide, Or.inl rfl,
    C6_filter_navigation (fun _ => true)
      ⟨some 0, ["d/x.jpg", "d/y.jpg", "d/z.jpg"], [], [("y.jpg", ⟨"7", ""⟩)],
        some "5", false, 40, 40, false, false, true, false⟩
      0 1 "5" (by decide) rfl (by decide) (Or.inl rfl)⟩

/-- C9 (amended): `get_exif_info` contains no exception handler, and two of
its steps can raise.  The exposure-bias fix-up raises ValueError when the
tag holds a denominator-zero rational -- PIL delivers it as NaN and
`int(rational)` on line 328 raises -- and the user-comment decode raises
when the payload is invalid in its selected encoding (here: a non-UNICODE
marker followed by a payload that the ASCII decode rejects).  When the
private IFD holds neither a user-comment tag nor a denominator-zero
exposure-bias tag the routine returns a result; either error propagates out
of the routine, with no tag returned at all.  The statements quantify over
the rational-rendering oracle. -/
theorem C9_no_handler :
    (∀ (floatRepr : Int → Int → String)
      (baseline ifd : List (Nat × ExifValue)) (endianBig : Bool),
      (∀ v : ExifValue, (37510, v) ∉ ifd) →
      (∀ n : Int, (37380, ExifValue.rational n 0) ∉ ifd) →
      ∃ m, get_exif_info floatRepr baseline ifd endianBig = Except.ok m)
    ∧ (∀ (floatRepr : Int → Int → String) (n : Int) (endianBig : Bool),
      get_exif_info floatRepr [] [(37380, ExifValue.rational n 0)] endianBig
        = Except.error "ValueError")
    ∧ (∀ (floatRepr : Int → Int → String) (bs : List Nat) (endianBig : Bool)
      (e : String),
      ¬ bs.take 8 = unicodeMarker →
      asciiDecode (bs.drop 8) = Except.error e →
      get_exif_info floatRepr [] [(37510, ExifValue.bytes bs)] endianBig
        = Except.error e) := by
  refine ⟨get_exif_info_no_uc, ?_, ?_⟩
  · intro floatRepr n endianBig
    rfl
  · intro floatRepr bs endianBig e henc hdec
    have hUC := decodeUserComment_ascii_error bs endianBig e henc hdec
    have eFix : ∀ (k : String) (fmt : ExifValue → ExifValue),
        (k == "User Comment") = false →
        exifFix [("User Comment", ExifValue.bytes bs)] k fmt
          = [("User Comment", ExifValue.bytes bs)] := by
      intro k fmt hk
      have hfind : exifFind [("User Comment", ExifValue.bytes bs)] k
          = none := by
        unfold exifFind
        have hb : ("User Comment" == k) = false := by
          rw [beq_eq_false_iff_ne] at hk ⊢
          exact fun h => hk (Eq.symm h)
        simp [List.find?_cons, hb]
      unfold exifFix
      rw [hfind]
    have e0 : exifBuild [] [(37510, ExifValue.bytes bs)]
        = [("User Comment", ExifValue.bytes bs)] := rfl
    have hEV : exifFixEV [("User Comment", ExifValue.bytes bs)]
        = Except.ok [("User Comment", ExifValue.bytes bs)] := by
      have hfind : exifFind [("User Comment", ExifValue.bytes bs)] "EV"
          = none := rfl
      unfold exifFixEV
      simp only [hfind]
    have hAll : exifFixAll floatRepr [("User Comment", ExifValue.bytes bs)]
        = Except.ok [("User Comment", ExifValue.bytes bs)] := by
      unfold exifFixAll
      rw [eFix "Exposure Time" (formatExposureTime floatRepr) (by decide)]
      simp only [hEV]
      rw [eFix "Focal Length" (formatFocalLength floatRepr) (by decide),
        eFix "Aperture" (formatAperture floatRepr) (by decide),
        eFix "ISO" (formatISO floatRepr) (by decide),
        eFix "Metering Mode" formatMeteringMode (by decide),
        eFix "Program" formatProgram (by decide),
        eFix "Exposure Mode" formatExposureMode (by decide)]
    unfold get_exif_info
    rw [e0]
    simp only [hAll, hUC]

/-- Witness for the amended C9: a well-formed IFD without a user comment
extracts successfully, a denominator-zero exposure bias raises ValueError,
and an ASCII-tagged user comment containing byte 255 raises
UnicodeDecodeError, all at concrete inputs. -/
theorem C9_no_handler_witness :
    (∀ v : ExifValue, (37510, v) ∉ [(34855, ExifValue.intv 200)])
    ∧ (∀ n : Int,
        (37380, ExifValue.rational n 0) ∉ [(34855, ExifValue.intv 200)])
    ∧ (∃ m, get_exif_info (fun _ _ => "") [] [(34855, ExifValue.intv 200)]
        false = Except.ok m)
    ∧ get_exif_info (fun _ _ => "") [] [(37380, ExifValue.rational 0 0)] false
        = Except.error "ValueError"
    ∧ ¬ ([65, 83, 67, 73, 73, 0, 0, 0, 255] : List Nat).take 8 = unicodeMarker
    ∧ asciiDecode (([65, 83, 67, 73, 73, 0, 0, 0, 255] : List Nat).drop 8)
        = Except.error "UnicodeDecodeError"
    ∧ get_exif_info (fun _ _ => "") []
        [(37510, ExifValue.bytes [65, 83, 67, 73, 73, 0, 0, 0, 255])] false
        = Except.error "UnicodeDecodeError" := by
  have hmem : ∀ v : ExifValue, (37510, v) ∉ [(34855, ExifValue.intv 200)] := by
    intro v hv
    simp at hv
  have hev : ∀ n : Int,
      (37380, ExifValue.rational n 0) ∉ [(34855, ExifValue.intv 200)] := by
    intro n hv
    simp at hv
  exact ⟨hmem, hev,
    C9_no_handler.1 (fun _ _ => "") [] [(34855, ExifValue.intv 200)] false
      hmem hev,
    C9_no_handler.2.1 (fun _ _ => "") 0 false,
    by decide, rfl,
    C9_no_handler.2.2 (fun _ _ => "") [65, 83, 67, 73, 73, 0, 0, 0, 255] false
      "UnicodeDecodeError" (by decide) rfl⟩

/-- C5 (amended): save followed by load reproduces every
(basename, rating, notes) triple exactly -- commas, double quotes, spaces
and even line feeds survive the csv quoting -- provided no field contains a
carriage return (which the text-mode read of `load_metadata` translates to a
line feed, see the counterexample), the keys are proper basenames without
slashes, and the store is non-empty (an empty store writes no file). -/
theorem C5_round_trip (md : Store) (hne : ¬ md = [])
    (hkeys : (md.map Prod.fst).Nodup)
    (hclean : ∀ p ∈ md, (∀ c ∈ p.1.data, ¬ c = '/') ∧ '\r' ∉ p.1.data ∧
      '\r' ∉ p.2.rating.data ∧ '\r' ∉ p.2.notes.data) :
    ∃ content, save_metadata md = some content
      ∧ load_metadata content = Except.ok md := by
  refine ⟨⟨serializeTable (md.map (fun p => (p.1, p.2.rating, p.2.notes)))⟩,
    ?_, ?_⟩
  · unfold save_metadata
    rw [if_neg hne]
  · unfold load_metadata
    have hcr : ∀ r ∈ md.map (fun p => (p.1, p.2.rating, p.2.notes)),
        '\r' ∉ r.1.data ∧ '\r' ∉ r.2.1.data ∧ '\r' ∉ r.2.2.data := by
      intro r hr
      rcases List.mem_map.mp hr with ⟨p, hp, rfl⟩
      exact ⟨(hclean p hp).2.1, (hclean p hp).2.2.1, (hclean p hp).2.2.2⟩
    have hdata : (⟨serializeTable
        (md.map (fun p => (p.1, p.2.rating, p.2.notes)))⟩ : String).data
        = serializeTable (md.map (fun p => (p.1, p.2.rating, p.2.notes))) :=
      rfl
    rw [hdata, univNewlines_serializeTable _ hcr, parseCsv_tableLF]
    have haux := load_metadata_rows_aux
      (md.map (fun p => (p.1, p.2.rating, p.2.notes))) []
    unfold load_metadata_rows
    rw [haux]
    have hfold : md.foldl
        (fun a p => dict_set a (basename p.1) ⟨p.2.rating, p.2.notes⟩) []
        = [] ++ md :=
      fold_restore md [] hkeys
        (fun p _ q hq => absurd hq (List.not_mem_nil q))
        (fun p hp => basename_no_slash p.1 (hclean p hp).1)
    rw [List.foldl_map]
    rw [show (fun (a : Store) (y : String × MetadataRecord) =>
        dict_set a (basename (y.1, y.2.rating, y.2.notes).1)
          ⟨(y.1, y.2.rating, y.2.notes).2.1, (y.1, y.2.rating, y.2.notes).2.2⟩)
      = (fun (a : Store) (p : String × MetadataRecord) =>
        dict_set a (basename p.1) ⟨p.2.rating, p.2.notes⟩) from rfl]
    rw [hfold, List.nil_append]

/-- Witness for the amended C5 at a concrete two-record store whose notes
contain commas, double quotes and spaces. -/
theorem C5_round_trip_witness :
    ¬ ([("x.jpg", ⟨"5", "a, b \"q\" c"⟩), ("y.jpg", ⟨"7", ""⟩)] : Store) = []
    ∧ (([("x.jpg", ⟨"5", "a, b \"q\" c"⟩), ("y.jpg", ⟨"7", ""⟩)] :
        Store).map Prod.fst).Nodup
    ∧ (∀ p ∈ ([("x.jpg", ⟨"5", "a, b \"q\" c"⟩), ("y.jpg", ⟨"7", ""⟩)] :
        Store), (∀ c ∈ p.1.data, ¬ c = '/') ∧ '\r' ∉ p.1.data ∧
        '\r' ∉ p.2.rating.data ∧ '\r' ∉ p.2.notes.data)
    ∧ (∃ content,
        save_metadata [("x.jpg", ⟨"5", "a, b \"q\" c"⟩), ("y.jpg", ⟨"7", ""⟩)]
          = some content
        ∧ load_metadata content
          = Except.ok [("x.jpg", ⟨"5", "a, b \"q\" c"⟩),
              ("y.jpg", ⟨"7", ""⟩)]) :=
  ⟨by decide, by decide, by decide,
    C5_round_trip [("x.jpg", ⟨"5", "a, b \"q\" c"⟩), ("y.jpg", ⟨"7", ""⟩)]
      (by decide) (by decide) (by decide)⟩

end Viewer
